import Mathlib

/-!
qframe CSV ingestion (`internal/io/csv.go`)

A shallow embedding of `ReadCsv` and `columnToData` and the properties of the
ingestion pipeline: the type-inference cascade int → float → bool → text, the
declared-type path, the handling of tokenizer errors and of ragged rows.

Conventions of the embedding.
* A Go `[]byte` and a Go `string` are lists of bytes; `string(b)` keeps the bytes.
* `uint32(n)` is `n % 2 ^ 32`; Go's `int` is the 64-bit integer of the usual targets,
  so `len` never wraps and `int(x)` of a parsed 64-bit integer is the identity.
* A Go function that may panic (index or slice out of range) returns `Result.panic`;
  a returned non-nil `error` is `Result.err`.
-/

set_option autoImplicit false

/-! ## Data model -/

/-- A Go byte slice, `[]byte`. The capacity of a slice is taken to be its length. -/
abbrev Bytes := List UInt8

/-- A Go `string`, an immutable sequence of bytes. -/
abbrev GoString := List UInt8

/-- The bytes of an ASCII string literal of the source. -/
def lit (s : String) : GoString := s.toList.map (fun c => UInt8.ofNat c.toNat)

/-- Modelled from the spec: the error values of package `errors` (not among the sources,
only its calls `errors.Propagate` and `errors.New` are) and the errors raised by the
collaborators (tokenizer, parse helpers). `propagated tag cause` is a cause wrapped with a
tag, `created tag msg` is a fresh error with a formatted message. -/
inductive Error where
  | raised (msg : GoString)
  | propagated (tag : String) (cause : Error)
  | created (tag : String) (msg : GoString)
  deriving DecidableEq, Repr

/-- The call `errors.Propagate(tag, err)`. -/
def errors.Propagate (tag : String) (err : Error) : Error := Error.propagated tag err

/-- The call `errors.New(tag, format, arg)` with the message already formatted. -/
def errors.New (tag : String) (msg : GoString) : Error := Error.created tag msg

/-- The outcome of a Go call returning `(value, error)`: a value with a nil error, a non-nil
error (with a nil value), or a run-time panic. -/
inductive Result (α : Type) where
  | ok (a : α)
  | err (e : Error)
  | panic
  deriving DecidableEq, Repr

/-- Modelled from the spec: `types.DataType` of package `types` (not among the sources), a
string type; the tests declare types by the strings "int", "float", "bool", "string", "enum". -/
abbrev DataType := GoString

/-- Modelled from the spec: the constant `types.None`; it is the zero value of `DataType`,
since a lookup `types[header]` of an undeclared column must select inference. -/
def types.None : DataType := []

/-- Modelled from the spec: the constant `types.Int`, declared as "int" in the tests. -/
def types.Int : DataType := lit "int"

/-- Modelled from the spec: the constant `types.Float`, declared as "float" in the tests. -/
def types.Float : DataType := lit "float"

/-- Modelled from the spec: the constant `types.Bool`, declared as "bool" in the tests. -/
def types.Bool : DataType := lit "bool"

/-- Modelled from the spec: the constant `types.String`, declared as "string" in the tests. -/
def types.String : DataType := lit "string"

/-- Helper type to slice column bytes into individual elements (`bytePointer`); both fields
are `uint32` values. The field `end_` is the source's `end`. -/
structure bytePointer where
  start : Nat
  end_ : Nat
  deriving DecidableEq, Repr

/-- Modelled from the spec: the helpers `parseInt`, `parseFloat`, `parseBool` of package `io`
(not among the sources) and the float `math.NaN()`; `F` is the type of float values. -/
structure Parsers (F : Type) where
  nan : F
  parseInt : Bytes → Except Error Int
  parseFloat : Bytes → Except Error F
  parseBool : Bytes → Except Error Bool

/-- The value returned by `columnToData` as `interface{}`: one of `[]int`, `[]float64`,
`[]bool`, `[]*string` (a nil pointer is `none`). -/
inductive Column (F : Type) where
  | ints (xs : List Int)
  | floats (xs : List F)
  | bools (xs : List Bool)
  | strings (xs : List (Option GoString))
  deriving DecidableEq, Repr

/-- The four column kinds. -/
inductive Kind where
  | int | float | bool | text
  deriving DecidableEq, Repr

/-- The kind of a column. -/
def Column.kind {F : Type} : Column F → Kind
  | Column.ints _ => Kind.int
  | Column.floats _ => Kind.float
  | Column.bools _ => Kind.bool
  | Column.strings _ => Kind.text

/-- The number of rows of a column (`len` of the slice). -/
def Column.length {F : Type} : Column F → Nat
  | Column.ints xs => xs.length
  | Column.floats xs => xs.length
  | Column.bools xs => xs.length
  | Column.strings xs => xs.length

/-! ## `columnToData` -/

/-- The slice expression `bytes[p.start:p.end]`; out of range is a panic (`none`). -/
def sliceOf (bytes : Bytes) (p : bytePointer) : Option Bytes :=
  if p.start ≤ p.end_ ∧ p.end_ ≤ bytes.length then
    some ((bytes.drop p.start).take (p.end_ - p.start))
  else none

/-- The loop of the int attempt: `intData` grows by one parsed value per pointer; the first
parse error ends the loop (`break`) and is the result. -/
def intLoop {F : Type} (P : Parsers F) (bytes : Bytes) :
    List bytePointer → List Int → Result (List Int)
  | [], intData => Result.ok intData
  | p :: ps, intData =>
    match sliceOf bytes p with
    | none => Result.panic
    | some b =>
      match P.parseInt b with
      | Except.error intErr => Result.err intErr
      | Except.ok x => intLoop P bytes ps (intData ++ [x])

/-- The loop of the float attempt: an empty field (`p.start == p.end`) appends NaN without
slicing or parsing; otherwise the field is parsed. -/
def floatLoop {F : Type} (P : Parsers F) (bytes : Bytes) :
    List bytePointer → List F → Result (List F)
  | [], floatData => Result.ok floatData
  | p :: ps, floatData =>
    if p.start = p.end_ then floatLoop P bytes ps (floatData ++ [P.nan])
    else
      match sliceOf bytes p with
      | none => Result.panic
      | some b =>
        match P.parseFloat b with
        | Except.error floatErr => Result.err floatErr
        | Except.ok x => floatLoop P bytes ps (floatData ++ [x])

/-- The loop of the bool attempt. -/
def boolLoop {F : Type} (P : Parsers F) (bytes : Bytes) :
    List bytePointer → List Bool → Result (List Bool)
  | [], boolData => Result.ok boolData
  | p :: ps, boolData =>
    match sliceOf bytes p with
    | none => Result.panic
    | some b =>
      match P.parseBool b with
      | Except.error boolErr => Result.err boolErr
      | Except.ok x => boolLoop P bytes ps (boolData ++ [x])

/-- The loop of the text conversion: a nil pointer for an empty field under `emptyNull`,
otherwise a pointer to `string(bytes[p.start:p.end])`. It has no error exit. -/
def stringLoop (bytes : Bytes) (emptyNull : Bool) :
    List bytePointer → List (Option GoString) → Option (List (Option GoString))
  | [], stringData => some stringData
  | p :: ps, stringData =>
    if p.start = p.end_ ∧ emptyNull = true then
      stringLoop bytes emptyNull ps (stringData ++ [none])
    else
      match sliceOf bytes p with
      | none => none
      | some s => stringLoop bytes emptyNull ps (stringData ++ [some s])

/-- The first `if` block of `columnToData`; `none` means that control leaves the block
without returning. -/
def intStage {F : Type} (P : Parsers F) (bytes : Bytes) (pointers : List bytePointer)
    (dataType : DataType) : Option (Result (Column F)) :=
  if dataType = types.Int ∨ dataType = types.None then
    match intLoop P bytes pointers [] with
    | Result.ok intData => some (Result.ok (Column.ints intData))
    | Result.panic => some Result.panic
    | Result.err err =>
      if dataType = types.Int then
        some (Result.err (errors.Propagate "Create int column" err))
      else none
  else none

/-- The second `if` block of `columnToData`. -/
def floatStage {F : Type} (P : Parsers F) (bytes : Bytes) (pointers : List bytePointer)
    (dataType : DataType) : Option (Result (Column F)) :=
  if dataType = types.Float ∨ dataType = types.None then
    match floatLoop P bytes pointers [] with
    | Result.ok floatData => some (Result.ok (Column.floats floatData))
    | Result.panic => some Result.panic
    | Result.err err =>
      if dataType = types.Float then
        some (Result.err (errors.Propagate "Create float column" err))
      else none
  else none

/-- The third `if` block of `columnToData`. -/
def boolStage {F : Type} (P : Parsers F) (bytes : Bytes) (pointers : List bytePointer)
    (dataType : DataType) : Option (Result (Column F)) :=
  if dataType = types.Bool ∨ dataType = types.None then
    match boolLoop P bytes pointers [] with
    | Result.ok boolData => some (Result.ok (Column.bools boolData))
    | Result.panic => some Result.panic
    | Result.err err =>
      if dataType = types.Bool then
        some (Result.err (errors.Propagate "Create bool column" err))
      else none
  else none

/-- The fourth `if` block of `columnToData`; it returns whenever it is entered. -/
def stringStage {F : Type} (bytes : Bytes) (pointers : List bytePointer) (emptyNull : Bool)
    (dataType : DataType) : Option (Result (Column F)) :=
  if dataType = types.String ∨ dataType = types.None then
    match stringLoop bytes emptyNull pointers [] with
    | some stringData => some (Result.ok (Column.strings stringData))
    | none => some Result.panic
  else none

/-- Convert bytes to data columns, try, in turn int, float, bool and last string
(`columnToData`). -/
def columnToData {F : Type} (P : Parsers F) (bytes : Bytes) (pointers : List bytePointer)
    (emptyNull : Bool) (dataType : DataType) : Result (Column F) :=
  match intStage P bytes pointers dataType with
  | some r => r
  | none =>
    match floatStage P bytes pointers dataType with
    | some r => r
    | none =>
      match boolStage P bytes pointers dataType with
      | some r => r
      | none =>
        match stringStage bytes pointers emptyNull dataType with
        | some r => r
        | none =>
          Result.err (errors.New "Create column" (lit "unknown data type: " ++ dataType))

/-! ## `ReadCsv` -/

/-- One iteration of `for r.Next()`: what `r.Err()` and `r.Fields()` return after a call
of `r.Next()` that returned true. -/
structure Row where
  err : Option Error
  fields : List Bytes

/-- Modelled from the spec: the row tokenizer (package `fastcsv`, an external collaborator),
given by what a run of it shows to its caller: the outcome of the first `r.Read()`, then one
`Row` for every `r.Next()` that returns true, then `r.Next()` returns false and `r.Err()`
holds `finalErr`. -/
structure Reader where
  header : Except Error (List Bytes)
  rows : List Row
  finalErr : Option Error

/-- A Go `map[string]V` as a list of entries with distinct keys. -/
abbrev GoMap (V : Type) := List (GoString × V)

/-- The lookup `m[k]` with its presence flag. -/
def GoMap.get {V : Type} (m : GoMap V) (k : GoString) : Option V :=
  (m.find? (fun kv => kv.1 == k)).map Prod.snd

/-- The assignment `m[k] = v`: an entry with key `k` is replaced. -/
def GoMap.set {V : Type} (m : GoMap V) (k : GoString) (v : V) : GoMap V :=
  m.filter (fun kv => !(kv.1 == k)) ++ [(k, v)]

/-- The lookup `types[header]`: the zero value of `DataType` for a missing key. -/
def typeOf (types : GoMap DataType) (header : GoString) : DataType :=
  (GoMap.get types header).getD []

/-- The body of `for i, col := range r.Fields()` from index `i` on: the field is appended to
`colBytes[i]` and its pointer to `colPointers[i]`; an index beyond the header count panics. -/
def collectFields : List Bytes → Nat → List Bytes × List (List bytePointer) →
    Option (List Bytes × List (List bytePointer))
  | [], _, st => some st
  | col :: rest, i, (colBytes, colPointers) =>
    match colBytes[i]?, colPointers[i]? with
    | some b, some ps =>
      let start := b.length
      let b1 := b ++ col
      collectFields rest (i + 1)
        (colBytes.set i b1,
         colPointers.set i (ps ++ [{ start := start % 2 ^ 32, end_ := b1.length % 2 ^ 32 }]))
    | _, _ => none

/-- The loop `for r.Next()`: a row with a non-nil `r.Err()` returns that error, otherwise the
fields of the row are collected. -/
def collectRows : List Row → List Bytes × List (List bytePointer) →
    Result (List Bytes × List (List bytePointer))
  | [], st => Result.ok st
  | row :: rest, st =>
    match row.err with
    | some e => Result.err e
    | none =>
      match collectFields row.fields 0 st with
      | none => Result.panic
      | some st1 => collectRows rest st1

/-- The loop `for i, header := range headers` from index `i` on: the first failing
conversion returns its error, otherwise `dataMap[header] = data`. -/
def convertColumns {F : Type} (P : Parsers F) (emptyNull : Bool) (types : GoMap DataType)
    (colBytes : List Bytes) (colPointers : List (List bytePointer)) :
    List GoString → Nat → GoMap (Column F) → Result (GoMap (Column F))
  | [], _, dataMap => Result.ok dataMap
  | header :: rest, i, dataMap =>
    match colBytes[i]?, colPointers[i]? with
    | some b, some ps =>
      match columnToData P b ps emptyNull (typeOf types header) with
      | Result.ok data =>
        convertColumns P emptyNull types colBytes colPointers rest (i + 1)
          (GoMap.set dataMap header data)
      | Result.err e => Result.err e
      | Result.panic => Result.panic
    | _, _ => Result.panic

/-- `ReadCsv`: the data map and the header list, or the error. -/
def ReadCsv {F : Type} (P : Parsers F) (r : Reader) (emptyNull : Bool)
    (types : GoMap DataType) : Result (GoMap (Column F) × List GoString) :=
  match r.header with
  | Except.error e => Result.err e
  | Except.ok byteHeader =>
    let headers : List GoString := byteHeader
    let colPointers : List (List bytePointer) := List.replicate headers.length []
    let colBytes : List Bytes := List.replicate headers.length []
    match collectRows r.rows (colBytes, colPointers) with
    | Result.err e => Result.err e
    | Result.panic => Result.panic
    | Result.ok (colBytes1, colPointers1) =>
      match convertColumns P emptyNull types colBytes1 colPointers1 headers 0 [] with
      | Result.ok dataMap => Result.ok (dataMap, headers)
      | Result.err e => Result.err e
      | Result.panic => Result.panic

/-! ## Sample collaborators, used to evaluate the code on concrete inputs -/

/-- The value of a string of decimal digits, if it is one. -/
def digitsValue : Bytes → Nat → Option Nat
  | [], acc => some acc
  | c :: cs, acc =>
    if 48 ≤ c.toNat ∧ c.toNat ≤ 57 then digitsValue cs (acc * 10 + (c.toNat - 48)) else none

/-- A sample integer parser: a non-empty string of decimal digits. -/
def sampleInt (b : Bytes) : Except Error Int :=
  match b with
  | [] => Except.error (Error.raised (lit "int: empty"))
  | _ =>
    match digitsValue b 0 with
    | some n => Except.ok (Int.ofNat n)
    | none => Except.error (Error.raised (lit "int: invalid syntax"))

/-- Sample float values: NaN, or the pair of the digits before and after the point. -/
inductive SampleFloat where
  | nan
  | num (whole frac : Nat)
  deriving DecidableEq, Repr

/-- A sample float parser: digits, optionally followed by a point and digits. -/
def sampleFloat (b : Bytes) : Except Error SampleFloat :=
  match b with
  | [] => Except.error (Error.raised (lit "float: empty"))
  | _ =>
    match digitsValue (b.takeWhile (fun c => c != 46)) 0,
          digitsValue ((b.dropWhile (fun c => c != 46)).drop 1) 0 with
    | some w, some f => Except.ok (SampleFloat.num w f)
    | _, _ => Except.error (Error.raised (lit "float: invalid syntax"))

/-- A sample bool parser: the literals true and false. -/
def sampleBool (b : Bytes) : Except Error Bool :=
  if b = lit "true" then Except.ok true
  else if b = lit "false" then Except.ok false
  else Except.error (Error.raised (lit "bool: invalid syntax"))

/-- The sample parse helpers. -/
def sampleParsers : Parsers SampleFloat where
  nan := SampleFloat.nan
  parseInt := sampleInt
  parseFloat := sampleFloat
  parseBool := sampleBool

/-- The tokenizer run of the base test: header foo,bar and the rows 1,2 and 3,4. -/
def baseReader : Reader where
  header := Except.ok [lit "foo", lit "bar"]
  rows := [{ err := none, fields := [lit "1", lit "2"] },
    { err := none, fields := [lit "3", lit "4"] }]
  finalErr := none

/-- A tokenizer run with a data row that is shorter than the header: header foo,bar and the
rows 1,2 and 3. -/
def shortRowReader : Reader where
  header := Except.ok [lit "foo", lit "bar"]
  rows := [{ err := none, fields := [lit "1", lit "2"] }, { err := none, fields := [lit "3"] }]
  finalErr := none

/-- A tokenizer run with a data row that is longer than the header: header foo,bar and the
rows 1,2 and 3,4,5. -/
def longRowReader : Reader where
  header := Except.ok [lit "foo", lit "bar"]
  rows := [{ err := none, fields := [lit "1", lit "2"] },
    { err := none, fields := [lit "3", lit "4", lit "5"] }]
  finalErr := none

/-- A tokenizer run with rows of uneven length over text columns: header a,b and the rows
x,y and z and w. -/
def unevenReader : Reader where
  header := Except.ok [lit "a", lit "b"]
  rows := [{ err := none, fields := [lit "x", lit "y"] }, { err := none, fields := [lit "z"] },
    { err := none, fields := [lit "w"] }]
  finalErr := none

/-- A tokenizer run that ends on a read error: header foo, the row 1, then `r.Next()`
returns false and `r.Err()` holds the error. -/
def brokenStreamReader : Reader where
  header := Except.ok [lit "foo"]
  rows := [{ err := none, fields := [lit "1"] }]
  finalErr := some (Error.raised (lit "unexpected EOF"))

/-- A field of 2^32 - 1 bytes, each the digit 0. -/
@[irreducible] def bigField : Bytes := List.replicate (2 ^ 32 - 1) 48

/-- A tokenizer run with one column whose fields take 2^32 + 1 bytes: header a, then a row
with `bigField` and a row with the field 12. -/
def bigReader : Reader where
  header := Except.ok [lit "a"]
  rows := [{ err := none, fields := [bigField] }, { err := none, fields := [lit "12"] }]
  finalErr := none

/-! ## Notions used to state the properties -/

/-- A pointer list is in bounds for a buffer: every pointer has start ≤ end ≤ len. -/
def InBounds (bytes : Bytes) (pointers : List bytePointer) : Prop :=
  ∀ p ∈ pointers, p.start ≤ p.end_ ∧ p.end_ ≤ bytes.length

instance (bytes : Bytes) (pointers : List bytePointer) : Decidable (InBounds bytes pointers) := by
  unfold InBounds; infer_instance

/-- The field a pointer denotes: the bytes from `start` up to `end`. -/
def fieldAt (bytes : Bytes) (p : bytePointer) : Bytes :=
  (bytes.drop p.start).take (p.end_ - p.start)

/-- The fields of a column, in row order. -/
def fieldsOf (bytes : Bytes) (pointers : List bytePointer) : List Bytes :=
  pointers.map (fieldAt bytes)

/-- A parse helper succeeds on a field. -/
def accepts {α : Type} (parse : Bytes → Except Error α) (b : Bytes) : Bool :=
  match parse b with
  | Except.ok _ => true
  | Except.error _ => false

/-- The float rule in the words of the specification: an empty field is NaN, a non-empty
field is what `parseFloat` makes of it. -/
def floatCell {F : Type} (P : Parsers F) (b : Bytes) : Except Error F :=
  if b = [] then Except.ok P.nan else P.parseFloat b

/-- The text rule in the words of the specification: an empty field is absent under
`emptyNull`, every other field is present with its bytes. -/
def textCell (emptyNull : Bool) (b : Bytes) : Option GoString :=
  if b = [] ∧ emptyNull = true then none else some b

/-- Parse every field in row order, stopping at the first failure. -/
def parseAll {α : Type} (parse : Bytes → Except Error α) : List Bytes → Except Error (List α)
  | [] => Except.ok []
  | b :: bs =>
    match parse b with
    | Except.error e => Except.error e
    | Except.ok x =>
      match parseAll parse bs with
      | Except.error e => Except.error e
      | Except.ok xs => Except.ok (x :: xs)

/-- The field that a row contributes to column `j`, when its fields go to the columns
`i`, `i + 1`, ... in order. -/
def fieldFor (fs : List Bytes) (i j : Nat) : Option Bytes :=
  if i ≤ j then fs[j - i]? else none

/-- The fields of the data rows that belong to column `j`, in row order; a row with no
field `j` contributes nothing. -/
def colFields (rows : List Row) (j : Nat) : List Bytes :=
  rows.filterMap (fun row => row.fields[j]?)

/-- The pointers recorded while a sequence of fields is appended to a buffer that holds
`s` bytes: each field gets `(uint32(start), uint32(end))`. -/
def pointersFrom : Nat → List Bytes → List bytePointer
  | _, [] => []
  | s, f :: fs =>
    { start := s % 2 ^ 32, end_ := (s + f.length) % 2 ^ 32 } :: pointersFrom (s + f.length) fs

/-- The keys of a map, in the order of its entries. -/
def GoMap.keys {V : Type} (m : GoMap V) : List GoString := m.map Prod.fst

/-- The conversion of column `i` under the name `header` in the last loop of `ReadCsv`:
`columnToData(colBytes[i], colPointers[i], emptyNull, types[header])`. -/
def convertAt {F : Type} (P : Parsers F) (emptyNull : Bool) (types : GoMap DataType)
    (colBytes : List Bytes) (colPointers : List (List bytePointer)) (i : Nat)
    (header : GoString) : Result (Column F) :=
  match colBytes[i]?, colPointers[i]? with
  | some b, some ps => columnToData P b ps emptyNull (typeOf types header)
  | _, _ => Result.panic

/-- A tokenizer run with a repeated header name: header a,a and the row 1,x. -/
def dupReader : Reader where
  header := Except.ok [lit "a", lit "a"]
  rows := [{ err := none, fields := [lit "1", lit "x"] }]
  finalErr := none

/-- A tokenizer run with a header row and no data row: header foo,bar. -/
def headerOnlyReader : Reader where
  header := Except.ok [lit "foo", lit "bar"]
  rows := []
  finalErr := none

/-- The tokenizer run of the test "Enum base case": header foo and the rows abc and def. -/
def enumReader : Reader where
  header := Except.ok [lit "foo"]
  rows := [{ err := none, fields := [lit "abc"] }, { err := none, fields := [lit "def"] }]
  finalErr := none

/-- The tokenizer run of the test "Float to int failure": header foo and the rows 1.23 and
4.56. -/
def decimalReader : Reader where
  header := Except.ok [lit "foo"]
  rows := [{ err := none, fields := [lit "1.23"] }, { err := none, fields := [lit "4.56"] }]
  finalErr := none

/-- The number of bytes that the first `k` fields of a column take in its buffer. -/
def offset (fs : List Bytes) (k : Nat) : Nat := ((fs.take k).map List.length).sum

/-- The rows that the collection loop reaches: the rows before the first one for which
`r.Err()` is non-nil. -/
def collectedRows (rows : List Row) : List Row :=
  rows.takeWhile (fun row => row.err.isNone)

/-- The error at which the collection loop returns, if there is one: the `r.Err()` of the
first row that has one. -/
def firstRowError : List Row → Option Error
  | [] => none
  | row :: rest =>
    match row.err with
    | some e => some e
    | none => firstRowError rest

/-- The outcome of a conversion loop, from the outcome of parsing the fields in order. -/
def loopResult {α : Type} (acc : List α) : Except Error (List α) → Result (List α)
  | Except.ok xs => Result.ok (acc ++ xs)
  | Except.error e => Result.err e

/-! ## Lemmas on slicing and on the conversion loops -/

theorem sliceOf_of_bounds (bytes : Bytes) (p : bytePointer)
    (h : p.start ≤ p.end_ ∧ p.end_ ≤ bytes.length) :
    sliceOf bytes p = some (fieldAt bytes p) := by
  simp [sliceOf, fieldAt, h]

theorem fieldAt_length (bytes : Bytes) (p : bytePointer)
    (h : p.start ≤ p.end_ ∧ p.end_ ≤ bytes.length) :
    (fieldAt bytes p).length = p.end_ - p.start := by
  simp only [fieldAt, List.length_take, List.length_drop]
  omega

theorem fieldAt_eq_nil_iff (bytes : Bytes) (p : bytePointer)
    (h : p.start ≤ p.end_ ∧ p.end_ ≤ bytes.length) :
    fieldAt bytes p = [] ↔ p.start = p.end_ := by
  rw [← List.length_eq_zero, fieldAt_length bytes p h]
  omega

theorem InBounds.head {bytes : Bytes} {p : bytePointer} {ps : List bytePointer}
    (h : InBounds bytes (p :: ps)) : p.start ≤ p.end_ ∧ p.end_ ≤ bytes.length :=
  h p (List.mem_cons_self p ps)

theorem InBounds.tail {bytes : Bytes} {p : bytePointer} {ps : List bytePointer}
    (h : InBounds bytes (p :: ps)) : InBounds bytes ps :=
  fun q hq => h q (List.mem_cons_of_mem p hq)

theorem loopResult_cons {α : Type} (acc : List α) (x : α) (r : Except Error (List α)) :
    loopResult (acc ++ [x]) r =
      loopResult acc (match r with
        | Except.error e => Except.error e
        | Except.ok xs => Except.ok (x :: xs)) := by
  cases r <;> simp [loopResult]

theorem intLoop_eq {F : Type} (P : Parsers F) (bytes : Bytes) :
    ∀ (ps : List bytePointer) (acc : List Int), InBounds bytes ps →
      intLoop P bytes ps acc = loopResult acc (parseAll P.parseInt (fieldsOf bytes ps)) := by
  intro ps
  induction ps with
  | nil => intro acc _; simp [intLoop, fieldsOf, parseAll, loopResult]
  | cons p ps ih =>
    intro acc h
    simp only [intLoop, sliceOf_of_bounds bytes p h.head, fieldsOf, List.map_cons, parseAll]
    cases hx : P.parseInt (fieldAt bytes p) with
    | error e => simp [loopResult]
    | ok x =>
      simp only
      rw [ih (acc ++ [x]) h.tail, loopResult_cons]
      rfl

theorem boolLoop_eq {F : Type} (P : Parsers F) (bytes : Bytes) :
    ∀ (ps : List bytePointer) (acc : List Bool), InBounds bytes ps →
      boolLoop P bytes ps acc = loopResult acc (parseAll P.parseBool (fieldsOf bytes ps)) := by
  intro ps
  induction ps with
  | nil => intro acc _; simp [boolLoop, fieldsOf, parseAll, loopResult]
  | cons p ps ih =>
    intro acc h
    simp only [boolLoop, sliceOf_of_bounds bytes p h.head, fieldsOf, List.map_cons, parseAll]
    cases hx : P.parseBool (fieldAt bytes p) with
    | error e => simp [loopResult]
    | ok x =>
      simp only
      rw [ih (acc ++ [x]) h.tail, loopResult_cons]
      rfl

theorem floatLoop_eq {F : Type} (P : Parsers F) (bytes : Bytes) :
    ∀ (ps : List bytePointer) (acc : List F), InBounds bytes ps →
      floatLoop P bytes ps acc = loopResult acc (parseAll (floatCell P) (fieldsOf bytes ps)) := by
  intro ps
  induction ps with
  | nil => intro acc _; simp [floatLoop, fieldsOf, parseAll, loopResult]
  | cons p ps ih =>
    intro acc h
    simp only [floatLoop, fieldsOf, List.map_cons, parseAll, floatCell,
      fieldAt_eq_nil_iff bytes p h.head]
    by_cases he : p.start = p.end_
    · simp only [he, if_true]
      rw [ih (acc ++ [P.nan]) h.tail, loopResult_cons]
      rfl
    · simp only [he, if_false, sliceOf_of_bounds bytes p h.head]
      cases hx : P.parseFloat (fieldAt bytes p) with
      | error e => simp [loopResult]
      | ok x =>
        simp only
        rw [ih (acc ++ [x]) h.tail, loopResult_cons]
        rfl

theorem stringLoop_eq (bytes : Bytes) (emptyNull : Bool) :
    ∀ (ps : List bytePointer) (acc : List (Option GoString)), InBounds bytes ps →
      stringLoop bytes emptyNull ps acc =
        some (acc ++ (fieldsOf bytes ps).map (textCell emptyNull)) := by
  intro ps
  induction ps with
  | nil => intro acc _; simp [stringLoop, fieldsOf]
  | cons p ps ih =>
    intro acc h
    simp only [stringLoop, fieldsOf, List.map_cons, textCell,
      fieldAt_eq_nil_iff bytes p h.head]
    by_cases he : p.start = p.end_ ∧ emptyNull = true
    · rw [if_pos he, if_pos he, ih _ h.tail]
      simp [fieldsOf, textCell]
    · rw [if_neg he, if_neg he, sliceOf_of_bounds bytes p h.head]
      simp only
      rw [ih _ h.tail]
      simp [fieldsOf, textCell]

/-! ## Lemmas on `parseAll` -/

theorem parseAll_ok_iff {α : Type} (parse : Bytes → Except Error α) :
    ∀ (bs : List Bytes) (xs : List α),
      parseAll parse bs = Except.ok xs ↔ bs.map parse = xs.map Except.ok := by
  intro bs
  induction bs with
  | nil =>
    intro xs
    cases xs <;> simp [parseAll]
  | cons b bs ih =>
    intro xs
    simp only [parseAll, List.map_cons]
    cases hb : parse b with
    | error e =>
      cases xs <;> simp
    | ok x =>
      cases hr : parseAll parse bs with
      | error e =>
        cases xs with
        | nil => simp
        | cons y ys =>
          have := ih ys
          rw [hr] at this
          simp at this
          simp [this]
      | ok zs =>
        have hz := (ih zs).1 hr
        cases xs with
        | nil => simp
        | cons y ys =>
          simp only [List.map_cons, List.cons.injEq, Except.ok.injEq, hz]
          constructor
          · rintro ⟨rfl, rfl⟩
            exact ⟨rfl, rfl⟩
          · rintro ⟨rfl, h2⟩
            refine ⟨rfl, ?_⟩
            have h3 : parseAll parse bs = Except.ok ys := (ih ys).2 (hz ▸ h2)
            rw [hr] at h3
            exact Except.ok.inj h3

theorem parseAll_ok_of_accepts {α : Type} (parse : Bytes → Except Error α) :
    ∀ (bs : List Bytes), (∀ b ∈ bs, accepts parse b = true) →
      ∃ xs, parseAll parse bs = Except.ok xs := by
  intro bs
  induction bs with
  | nil => intro _; exact ⟨[], rfl⟩
  | cons b bs ih =>
    intro h
    obtain ⟨xs, hxs⟩ := ih (fun c hc => h c (List.mem_cons_of_mem b hc))
    have hb := h b (List.mem_cons_self b bs)
    simp only [accepts] at hb
    cases hx : parse b with
    | error e => rw [hx] at hb; simp at hb
    | ok x => exact ⟨x :: xs, by simp [parseAll, hx, hxs]⟩

theorem accepts_of_parseAll_ok {α : Type} (parse : Bytes → Except Error α) :
    ∀ (bs : List Bytes) (xs : List α), parseAll parse bs = Except.ok xs →
      ∀ b ∈ bs, accepts parse b = true := by
  intro bs
  induction bs with
  | nil => intro _ _ b hb; simp at hb
  | cons c bs ih =>
    intro xs h b hb
    simp only [parseAll] at h
    cases hx : parse c with
    | error e => rw [hx] at h; simp at h
    | ok x =>
      rw [hx] at h
      cases hr : parseAll parse bs with
      | error e => rw [hr] at h; simp at h
      | ok ys =>
        rcases List.mem_cons.1 hb with rfl | hmem
        · simp [accepts, hx]
        · exact ih ys hr b hmem

/-- The error of `parseAll` is the error of the first field that fails. -/
theorem parseAll_error_of_first {α : Type} (parse : Bytes → Except Error α) :
    ∀ (bs : List Bytes) (k : Nat) (b : Bytes) (e : Error),
      bs[k]? = some b → parse b = Except.error e →
      (∀ (j : Nat) (c : Bytes), j < k → bs[j]? = some c → accepts parse c = true) →
      parseAll parse bs = Except.error e := by
  intro bs
  induction bs with
  | nil => intro k b e hk; simp at hk
  | cons c bs ih =>
    intro k b e hk hb hprev
    cases k with
    | zero =>
      simp only [List.getElem?_cons_zero, Option.some.injEq] at hk
      subst hk
      simp [parseAll, hb]
    | succ k =>
      simp only [List.getElem?_cons_succ] at hk
      have hc := hprev 0 c (Nat.succ_pos k) (by simp)
      simp only [accepts] at hc
      cases hx : parse c with
      | error e1 => rw [hx] at hc; simp at hc
      | ok x =>
        have := ih k b e hk hb (fun j d hj hd => hprev (j + 1) d (by omega) (by simpa using hd))
        simp [parseAll, hx, this]

/-- A failure of `parseAll` comes from a first failing field. -/
theorem parseAll_error_first {α : Type} (parse : Bytes → Except Error α) :
    ∀ (bs : List Bytes) (e : Error), parseAll parse bs = Except.error e →
      ∃ (k : Nat) (b : Bytes), bs[k]? = some b ∧ parse b = Except.error e ∧
        ∀ (j : Nat) (c : Bytes), j < k → bs[j]? = some c → accepts parse c = true := by
  intro bs
  induction bs with
  | nil => intro e h; simp [parseAll] at h
  | cons c bs ih =>
    intro e h
    simp only [parseAll] at h
    cases hx : parse c with
    | error e1 =>
      rw [hx] at h
      simp only [Except.error.injEq] at h
      subst h
      exact ⟨0, c, by simp, hx, fun j _ hj => absurd hj (Nat.not_lt_zero j)⟩
    | ok x =>
      rw [hx] at h
      cases hr : parseAll parse bs with
      | ok ys => rw [hr] at h; simp at h
      | error e2 =>
        rw [hr] at h
        simp only [Except.error.injEq] at h
        subst h
        obtain ⟨k, b, hk, hb, hprev⟩ := ih e2 hr
        refine ⟨k + 1, b, by simpa using hk, hb, ?_⟩
        intro j d hj hd
        cases j with
        | zero =>
          simp only [List.getElem?_cons_zero, Option.some.injEq] at hd
          subst hd
          simp [accepts, hx]
        | succ j =>
          exact hprev j d (by omega) (by simpa using hd)

theorem parseAll_error_iff {α : Type} (parse : Bytes → Except Error α) (bs : List Bytes) :
    (∃ e, parseAll parse bs = Except.error e) ↔ ∃ b ∈ bs, accepts parse b = false := by
  constructor
  · rintro ⟨e, h⟩
    obtain ⟨k, b, hk, hb, _⟩ := parseAll_error_first parse bs e h
    exact ⟨b, List.getElem?_mem hk, by simp [accepts, hb]⟩
  · rintro ⟨b, hb, hacc⟩
    cases hr : parseAll parse bs with
    | error e => exact ⟨e, rfl⟩
    | ok xs =>
      have := accepts_of_parseAll_ok parse bs xs hr b hb
      rw [hacc] at this
      exact absurd this (by simp)

theorem parseAll_length {α : Type} (parse : Bytes → Except Error α) (bs : List Bytes)
    (xs : List α) (h : parseAll parse bs = Except.ok xs) : xs.length = bs.length := by
  have := congrArg List.length ((parseAll_ok_iff parse bs xs).1 h)
  simpa using this.symm

/-! ## `columnToData`, one declared type at a time -/

theorem types_distinct :
    types.Int ≠ types.None ∧ types.Float ≠ types.None ∧ types.Bool ≠ types.None ∧
    types.String ≠ types.None ∧ types.Int ≠ types.Float ∧ types.Int ≠ types.Bool ∧
    types.Int ≠ types.String ∧ types.Float ≠ types.Bool ∧ types.Float ≠ types.String ∧
    types.Bool ≠ types.String := by decide

theorem columnToData_none_eq {F : Type} (P : Parsers F) (bytes : Bytes)
    (pointers : List bytePointer) (emptyNull : Bool) (h : InBounds bytes pointers) :
    columnToData P bytes pointers emptyNull types.None =
      match parseAll P.parseInt (fieldsOf bytes pointers) with
      | Except.ok xs => Result.ok (Column.ints xs)
      | Except.error _ =>
        match parseAll (floatCell P) (fieldsOf bytes pointers) with
        | Except.ok xs => Result.ok (Column.floats xs)
        | Except.error _ =>
          match parseAll P.parseBool (fieldsOf bytes pointers) with
          | Except.ok xs => Result.ok (Column.bools xs)
          | Except.error _ =>
            Result.ok (Column.strings ((fieldsOf bytes pointers).map (textCell emptyNull))) := by
  obtain ⟨h1, h2, h3, h4, -⟩ := types_distinct
  simp only [columnToData, intStage, floatStage, boolStage, stringStage, intLoop_eq P bytes _ _ h,
    floatLoop_eq P bytes _ _ h, boolLoop_eq P bytes _ _ h, stringLoop_eq bytes emptyNull _ _ h,
    h1.symm, h2.symm, h3.symm, h4.symm, or_true, if_true, if_false, List.nil_append]
  cases parseAll P.parseInt (fieldsOf bytes pointers) with
  | ok xs => simp [loopResult]
  | error e =>
    simp only [loopResult]
    cases parseAll (floatCell P) (fieldsOf bytes pointers) with
    | ok xs => simp
    | error e =>
      simp only
      cases parseAll P.parseBool (fieldsOf bytes pointers) with
      | ok xs => simp
      | error e => simp

theorem columnToData_int_eq {F : Type} (P : Parsers F) (bytes : Bytes)
    (pointers : List bytePointer) (emptyNull : Bool) (h : InBounds bytes pointers) :
    columnToData P bytes pointers emptyNull types.Int =
      match parseAll P.parseInt (fieldsOf bytes pointers) with
      | Except.ok xs => Result.ok (Column.ints xs)
      | Except.error e => Result.err (errors.Propagate "Create int column" e) := by
  simp only [columnToData, intStage, intLoop_eq P bytes _ _ h, true_or, if_true,
    List.nil_append]
  cases parseAll P.parseInt (fieldsOf bytes pointers) <;> simp [loopResult]

theorem columnToData_float_eq {F : Type} (P : Parsers F) (bytes : Bytes)
    (pointers : List bytePointer) (emptyNull : Bool) (h : InBounds bytes pointers) :
    columnToData P bytes pointers emptyNull types.Float =
      match parseAll (floatCell P) (fieldsOf bytes pointers) with
      | Except.ok xs => Result.ok (Column.floats xs)
      | Except.error e => Result.err (errors.Propagate "Create float column" e) := by
  obtain ⟨-, h2, -, -, h5, -⟩ := types_distinct
  simp only [columnToData, intStage, floatStage, floatLoop_eq P bytes _ _ h, true_or, if_true,
    h2, h5.symm, or_self, if_false, List.nil_append]
  cases parseAll (floatCell P) (fieldsOf bytes pointers) <;> simp [loopResult]

theorem columnToData_bool_eq {F : Type} (P : Parsers F) (bytes : Bytes)
    (pointers : List bytePointer) (emptyNull : Bool) (h : InBounds bytes pointers) :
    columnToData P bytes pointers emptyNull types.Bool =
      match parseAll P.parseBool (fieldsOf bytes pointers) with
      | Except.ok xs => Result.ok (Column.bools xs)
      | Except.error e => Result.err (errors.Propagate "Create bool column" e) := by
  obtain ⟨-, -, h3, -, -, h6, -, h8, -⟩ := types_distinct
  simp only [columnToData, intStage, floatStage, boolStage, boolLoop_eq P bytes _ _ h, true_or,
    if_true, h3, h6.symm, h8.symm, or_self, if_false, List.nil_append]
  cases parseAll P.parseBool (fieldsOf bytes pointers) <;> simp [loopResult]

theorem columnToData_string_eq {F : Type} (P : Parsers F) (bytes : Bytes)
    (pointers : List bytePointer) (emptyNull : Bool) (h : InBounds bytes pointers) :
    columnToData P bytes pointers emptyNull types.String =
      Result.ok (Column.strings ((fieldsOf bytes pointers).map (textCell emptyNull))) := by
  obtain ⟨-, -, -, h4, -, -, h7, -, h9, h10⟩ := types_distinct
  simp only [columnToData, intStage, floatStage, boolStage, stringStage,
    stringLoop_eq bytes emptyNull _ _ h, true_or, if_true, h4, h7.symm, h9.symm, h10.symm,
    or_self, if_false, List.nil_append]

theorem columnToData_unknown_eq {F : Type} (P : Parsers F) (bytes : Bytes)
    (pointers : List bytePointer) (emptyNull : Bool) (dataType : DataType)
    (h0 : dataType ≠ types.None) (h1 : dataType ≠ types.Int) (h2 : dataType ≠ types.Float)
    (h3 : dataType ≠ types.Bool) (h4 : dataType ≠ types.String) :
    columnToData P bytes pointers emptyNull dataType =
      Result.err (errors.New "Create column" (lit "unknown data type: " ++ dataType)) := by
  simp [columnToData, intStage, floatStage, boolStage, stringStage, h0, h1, h2, h3, h4]

theorem parseAll_cases {α : Type} (parse : Bytes → Except Error α) (bs : List Bytes) :
    ((∀ b ∈ bs, accepts parse b = true) ∧
        ∃ xs, parseAll parse bs = Except.ok xs ∧ bs.map parse = xs.map Except.ok) ∨
      (¬ (∀ b ∈ bs, accepts parse b = true) ∧ ∃ e, parseAll parse bs = Except.error e) := by
  cases hr : parseAll parse bs with
  | ok xs =>
    exact Or.inl ⟨accepts_of_parseAll_ok parse bs xs hr, xs, rfl, (parseAll_ok_iff parse bs xs).1 hr⟩
  | error e =>
    refine Or.inr ⟨?_, e, rfl⟩
    intro hall
    obtain ⟨xs, hxs⟩ := parseAll_ok_of_accepts parse bs hall
    rw [hr] at hxs
    exact absurd hxs (by simp)

theorem accepts_floatCell {F : Type} (P : Parsers F) (b : Bytes) :
    accepts (floatCell P) b = true ↔ (b = [] ∨ accepts P.parseFloat b = true) := by
  by_cases hb : b = []
  · simp [accepts, floatCell, hb]
  · simp [accepts, floatCell, hb]

theorem accepts_floatCell_all {F : Type} (P : Parsers F) (bs : List Bytes) :
    (∀ b ∈ bs, accepts (floatCell P) b = true) ↔
      (∀ b ∈ bs, b = [] ∨ accepts P.parseFloat b = true) := by
  constructor
  · intro h b hb; exact (accepts_floatCell P b).1 (h b hb)
  · intro h b hb; exact (accepts_floatCell P b).2 (h b hb)

theorem fieldsOf_getElem? (bytes : Bytes) (pointers : List bytePointer) (k : Nat) :
    (fieldsOf bytes pointers)[k]? = (pointers[k]?).map (fieldAt bytes) := by
  simp [fieldsOf]

/-! ## Properties of `columnToData` -/

/-- C1 (type inference order). With no declared type (`types.None`) and an in-bounds pointer
list, `columnToData` returns the int column of the parsed values if `parseInt` succeeds on
every field; otherwise the float column if every field is empty or accepted by `parseFloat`;
otherwise the bool column if `parseBool` succeeds on every field; otherwise the text column.
The values of a column are given by the parse results of the fields, in row order. -/
theorem columnToData_inference_order {F : Type} (P : Parsers F) (bytes : Bytes)
    (pointers : List bytePointer) (emptyNull : Bool) (h : InBounds bytes pointers) :
    ((∀ f ∈ fieldsOf bytes pointers, accepts P.parseInt f = true) →
      ∃ xs, columnToData P bytes pointers emptyNull types.None = Result.ok (Column.ints xs) ∧
        (fieldsOf bytes pointers).map P.parseInt = xs.map Except.ok) ∧
    (¬ (∀ f ∈ fieldsOf bytes pointers, accepts P.parseInt f = true) →
      (∀ f ∈ fieldsOf bytes pointers, f = [] ∨ accepts P.parseFloat f = true) →
      ∃ xs, columnToData P bytes pointers emptyNull types.None = Result.ok (Column.floats xs) ∧
        (fieldsOf bytes pointers).map (floatCell P) = xs.map Except.ok) ∧
    (¬ (∀ f ∈ fieldsOf bytes pointers, accepts P.parseInt f = true) →
      ¬ (∀ f ∈ fieldsOf bytes pointers, f = [] ∨ accepts P.parseFloat f = true) →
      (∀ f ∈ fieldsOf bytes pointers, accepts P.parseBool f = true) →
      ∃ xs, columnToData P bytes pointers emptyNull types.None = Result.ok (Column.bools xs) ∧
        (fieldsOf bytes pointers).map P.parseBool = xs.map Except.ok) ∧
    (¬ (∀ f ∈ fieldsOf bytes pointers, accepts P.parseInt f = true) →
      ¬ (∀ f ∈ fieldsOf bytes pointers, f = [] ∨ accepts P.parseFloat f = true) →
      ¬ (∀ f ∈ fieldsOf bytes pointers, accepts P.parseBool f = true) →
      columnToData P bytes pointers emptyNull types.None =
        Result.ok (Column.strings ((fieldsOf bytes pointers).map (textCell emptyNull)))) := by
  rw [columnToData_none_eq P bytes pointers emptyNull h, ← accepts_floatCell_all]
  rcases parseAll_cases P.parseInt (fieldsOf bytes pointers) with
    ⟨hi, xs, hxs, hmap⟩ | ⟨hi, e, he⟩
  · rw [hxs]
    exact ⟨fun _ => ⟨xs, rfl, hmap⟩, fun hn => absurd hi hn, fun hn => absurd hi hn,
      fun hn => absurd hi hn⟩
  · rw [he]
    refine ⟨fun hn => absurd hn hi, ?_⟩
    rcases parseAll_cases (floatCell P) (fieldsOf bytes pointers) with
      ⟨hf, ys, hys, hmapf⟩ | ⟨hf, e2, he2⟩
    · rw [hys]
      exact ⟨fun _ _ => ⟨ys, rfl, hmapf⟩, fun _ hn => absurd hf hn, fun _ hn => absurd hf hn⟩
    · rw [he2]
      refine ⟨fun _ hn => absurd hn hf, ?_⟩
      rcases parseAll_cases P.parseBool (fieldsOf bytes pointers) with
        ⟨hb, zs, hzs, hmapb⟩ | ⟨hb, e3, he3⟩
      · rw [hzs]
        exact ⟨fun _ _ _ => ⟨zs, rfl, hmapb⟩, fun _ _ hn => absurd hb hn⟩
      · rw [he3]
        exact ⟨fun _ _ hn => absurd hn hb, fun _ _ _ => rfl⟩

/-- Witness of C1: the column 1.5, empty, 34 is inferred as a float column. -/
theorem columnToData_inference_order_witness :
    InBounds (lit "1.534") [⟨0, 3⟩, ⟨3, 3⟩, ⟨3, 5⟩] ∧
    ∃ xs, columnToData sampleParsers (lit "1.534") [⟨0, 3⟩, ⟨3, 3⟩, ⟨3, 5⟩] true types.None
        = Result.ok (Column.floats xs) ∧
      (fieldsOf (lit "1.534") [⟨0, 3⟩, ⟨3, 3⟩, ⟨3, 5⟩]).map (floatCell sampleParsers)
        = xs.map Except.ok :=
  ⟨by decide,
   (columnToData_inference_order sampleParsers (lit "1.534") [⟨0, 3⟩, ⟨3, 3⟩, ⟨3, 5⟩] true
      (by decide)).2.1 (by decide) (by decide)⟩

/-- C2 (a declared int, float or bool is a hard error exactly on a parse failure). For an
in-bounds pointer list and a declared type among int, float, bool, `columnToData` returns an
error iff some field fails the parse of that type (for float only a non-empty field can fail);
the error is the parse error of the first failing row wrapped with the tag of the declared
kind; an erroneous result carries no column. -/
theorem columnToData_declared_hard_error {F : Type} (P : Parsers F) (bytes : Bytes)
    (pointers : List bytePointer) (emptyNull : Bool) (h : InBounds bytes pointers) :
    (((∃ e, columnToData P bytes pointers emptyNull types.Int = Result.err e) ↔
        ∃ f ∈ fieldsOf bytes pointers, accepts P.parseInt f = false) ∧
      (∀ (k : Nat) (f : Bytes) (e : Error), (fieldsOf bytes pointers)[k]? = some f →
        P.parseInt f = Except.error e →
        (∀ (j : Nat) (c : Bytes), j < k → (fieldsOf bytes pointers)[j]? = some c →
          accepts P.parseInt c = true) →
        columnToData P bytes pointers emptyNull types.Int =
          Result.err (errors.Propagate "Create int column" e))) ∧
    (((∃ e, columnToData P bytes pointers emptyNull types.Float = Result.err e) ↔
        ∃ f ∈ fieldsOf bytes pointers, f ≠ [] ∧ accepts P.parseFloat f = false) ∧
      (∀ (k : Nat) (f : Bytes) (e : Error), (fieldsOf bytes pointers)[k]? = some f →
        f ≠ [] → P.parseFloat f = Except.error e →
        (∀ (j : Nat) (c : Bytes), j < k → (fieldsOf bytes pointers)[j]? = some c →
          c = [] ∨ accepts P.parseFloat c = true) →
        columnToData P bytes pointers emptyNull types.Float =
          Result.err (errors.Propagate "Create float column" e))) ∧
    (((∃ e, columnToData P bytes pointers emptyNull types.Bool = Result.err e) ↔
        ∃ f ∈ fieldsOf bytes pointers, accepts P.parseBool f = false) ∧
      (∀ (k : Nat) (f : Bytes) (e : Error), (fieldsOf bytes pointers)[k]? = some f →
        P.parseBool f = Except.error e →
        (∀ (j : Nat) (c : Bytes), j < k → (fieldsOf bytes pointers)[j]? = some c →
          accepts P.parseBool c = true) →
        columnToData P bytes pointers emptyNull types.Bool =
          Result.err (errors.Propagate "Create bool column" e))) ∧
    (∀ (dataType : DataType) (e : Error),
      columnToData P bytes pointers emptyNull dataType = Result.err e →
      ∀ c, columnToData P bytes pointers emptyNull dataType ≠ Result.ok c) := by
  refine ⟨⟨?_, ?_⟩, ⟨?_, ?_⟩, ⟨?_, ?_⟩, ?_⟩
  · rw [columnToData_int_eq P bytes pointers emptyNull h, ← parseAll_error_iff]
    cases parseAll P.parseInt (fieldsOf bytes pointers) <;> simp
  · intro k f e hk hf hprev
    rw [columnToData_int_eq P bytes pointers emptyNull h,
      parseAll_error_of_first P.parseInt _ k f e hk hf hprev]
  · rw [columnToData_float_eq P bytes pointers emptyNull h]
    have hiff := parseAll_error_iff (floatCell P) (fieldsOf bytes pointers)
    have hacc : (∃ b ∈ fieldsOf bytes pointers, accepts (floatCell P) b = false) ↔
        ∃ f ∈ fieldsOf bytes pointers, f ≠ [] ∧ accepts P.parseFloat f = false := by
      constructor
      · rintro ⟨b, hb, hn⟩
        refine ⟨b, hb, ?_⟩
        by_cases hb0 : b = []
        · simp [accepts, floatCell, hb0] at hn
        · refine ⟨hb0, ?_⟩
          simpa [accepts, floatCell, hb0] using hn
      · rintro ⟨b, hb, hb0, hn⟩
        exact ⟨b, hb, by simpa [accepts, floatCell, hb0] using hn⟩
    rw [← hacc, ← hiff]
    cases parseAll (floatCell P) (fieldsOf bytes pointers) <;> simp
  · intro k f e hk hne hf hprev
    have hf2 : floatCell P f = Except.error e := by simp [floatCell, hne, hf]
    rw [columnToData_float_eq P bytes pointers emptyNull h,
      parseAll_error_of_first (floatCell P) _ k f e hk hf2
        (fun j c hj hc => (accepts_floatCell P c).2 (hprev j c hj hc))]
  · rw [columnToData_bool_eq P bytes pointers emptyNull h, ← parseAll_error_iff]
    cases parseAll P.parseBool (fieldsOf bytes pointers) <;> simp
  · intro k f e hk hf hprev
    rw [columnToData_bool_eq P bytes pointers emptyNull h,
      parseAll_error_of_first P.parseBool _ k f e hk hf hprev]
  · intro dataType e he c hc
    rw [he] at hc
    exact absurd hc (by simp)

/-- Witness of C2: the fields 1.23 and 4.56 declared int fail with the error of the first
row, tagged with the int column. -/
theorem columnToData_declared_hard_error_witness :
    InBounds (lit "1.234.56") [⟨0, 4⟩, ⟨4, 8⟩] ∧
    columnToData sampleParsers (lit "1.234.56") [⟨0, 4⟩, ⟨4, 8⟩] false types.Int =
      Result.err (errors.Propagate "Create int column"
        (Error.raised (lit "int: invalid syntax"))) :=
  ⟨by decide,
   (columnToData_declared_hard_error sampleParsers (lit "1.234.56") [⟨0, 4⟩, ⟨4, 8⟩] false
      (by decide)).1.2 0 (lit "1.23") (Error.raised (lit "int: invalid syntax"))
      (by decide) rfl (fun j _ hj => absurd hj (Nat.not_lt_zero j))⟩

theorem map_ok_entries {α : Type} (parse : Bytes → Except Error α) (bs : List Bytes)
    (xs : List α) (hmap : bs.map parse = xs.map Except.ok) :
    xs.length = bs.length ∧
      ∀ (k : Nat) (b : Bytes), bs[k]? = some b → ∃ x, xs[k]? = some x ∧ parse b = Except.ok x := by
  constructor
  · have := congrArg List.length hmap
    simpa using this.symm
  · intro k b hk
    have hget := congrArg (fun l => l[k]?) hmap
    simp only [List.getElem?_map, hk, Option.map_some'] at hget
    cases hx : xs[k]? with
    | none => rw [hx] at hget; simp at hget
    | some x =>
      rw [hx] at hget
      simp only [Option.map_some', Option.some.injEq] at hget
      exact ⟨x, rfl, hget⟩

theorem floatCell_congr {F : Type} (P Q : Parsers F) (hnan : Q.nan = P.nan)
    (hpf : ∀ b, b ≠ [] → Q.parseFloat b = P.parseFloat b) : floatCell Q = floatCell P := by
  funext b
  by_cases hb : b = []
  · simp [floatCell, hb, hnan]
  · simp [floatCell, hb, hpf b hb]

/-- The entries of a float column, read off the parse results of the fields. -/
theorem float_entries {F : Type} (P : Parsers F) (bytes : Bytes) (pointers : List bytePointer)
    (h : InBounds bytes pointers) (xs : List F)
    (hmap : (fieldsOf bytes pointers).map (floatCell P) = xs.map Except.ok) :
    xs.length = pointers.length ∧
      ∀ (k : Nat) (p : bytePointer), pointers[k]? = some p →
        (p.start = p.end_ → xs[k]? = some P.nan) ∧
        (p.start ≠ p.end_ →
          ∃ x, xs[k]? = some x ∧ P.parseFloat (fieldAt bytes p) = Except.ok x) := by
  obtain ⟨hlen, hent⟩ := map_ok_entries (floatCell P) _ xs hmap
  refine ⟨by simpa [fieldsOf] using hlen, ?_⟩
  intro k p hk
  have hp : p.start ≤ p.end_ ∧ p.end_ ≤ bytes.length := h p (List.getElem?_mem hk)
  obtain ⟨x, hx, hcell⟩ := hent k (fieldAt bytes p) (by rw [fieldsOf_getElem?, hk]; rfl)
  constructor
  · intro he
    have : fieldAt bytes p = [] := (fieldAt_eq_nil_iff bytes p hp).2 he
    simp only [floatCell, this, if_true, Except.ok.injEq] at hcell
    rw [hx, hcell]
  · intro hne
    have : fieldAt bytes p ≠ [] := fun h0 => hne ((fieldAt_eq_nil_iff bytes p hp).1 h0)
    simp only [floatCell, this, if_false] at hcell
    exact ⟨x, hx, hcell⟩

/-- C4 (float conversion maps empty fields to NaN independently of `emptyNull`). For a column
converted as float, declared float or reached by inference: the output has one entry per row
in row order, the entry of an empty field (start == end) is NaN, the entry of a non-empty
field is the value of `parseFloat` on it; the float result is the same for both values of
`emptyNull`; the result does not depend on what `parseFloat` does on the empty field; and
the float column is produced whenever the float attempt is reached and every field is empty
or accepted by `parseFloat`. -/
theorem columnToData_float_rule {F : Type} (P : Parsers F) (bytes : Bytes)
    (pointers : List bytePointer) (emptyNull : Bool) (dataType : DataType)
    (h : InBounds bytes pointers) (hT : dataType = types.Float ∨ dataType = types.None) :
    (∀ xs, columnToData P bytes pointers emptyNull dataType = Result.ok (Column.floats xs) →
      xs.length = pointers.length ∧
      ∀ (k : Nat) (p : bytePointer), pointers[k]? = some p →
        (p.start = p.end_ → xs[k]? = some P.nan) ∧
        (p.start ≠ p.end_ →
          ∃ x, xs[k]? = some x ∧ P.parseFloat (fieldAt bytes p) = Except.ok x)) ∧
    (∀ xs, columnToData P bytes pointers true dataType = Result.ok (Column.floats xs) ↔
      columnToData P bytes pointers false dataType = Result.ok (Column.floats xs)) ∧
    (∀ Q : Parsers F, Q.nan = P.nan → Q.parseInt = P.parseInt → Q.parseBool = P.parseBool →
      (∀ b, b ≠ [] → Q.parseFloat b = P.parseFloat b) →
      columnToData Q bytes pointers emptyNull dataType =
        columnToData P bytes pointers emptyNull dataType) ∧
    ((∀ f ∈ fieldsOf bytes pointers, f = [] ∨ accepts P.parseFloat f = true) →
      (dataType = types.None → ¬ ∀ f ∈ fieldsOf bytes pointers, accepts P.parseInt f = true) →
      ∃ xs, columnToData P bytes pointers emptyNull dataType = Result.ok (Column.floats xs)) := by
  rcases hT with rfl | rfl
  · refine ⟨?_, ?_, ?_, ?_⟩
    · intro xs hxs
      rw [columnToData_float_eq P bytes pointers emptyNull h] at hxs
      cases hr : parseAll (floatCell P) (fieldsOf bytes pointers) with
      | error e => rw [hr] at hxs; simp at hxs
      | ok ys =>
        rw [hr] at hxs
        simp only [Result.ok.injEq, Column.floats.injEq] at hxs
        subst hxs
        exact float_entries P bytes pointers h ys ((parseAll_ok_iff _ _ _).1 hr)
    · intro xs
      rw [columnToData_float_eq P bytes pointers true h,
        columnToData_float_eq P bytes pointers false h]
    · intro Q hnan _ _ hpf
      rw [columnToData_float_eq P bytes pointers emptyNull h,
        columnToData_float_eq Q bytes pointers emptyNull h, floatCell_congr P Q hnan hpf]
    · intro hall _
      obtain ⟨xs, hxs⟩ := parseAll_ok_of_accepts (floatCell P) _
        ((accepts_floatCell_all P _).2 hall)
      exact ⟨xs, by rw [columnToData_float_eq P bytes pointers emptyNull h, hxs]⟩
  · refine ⟨?_, ?_, ?_, ?_⟩
    · intro xs hxs
      rw [columnToData_none_eq P bytes pointers emptyNull h] at hxs
      cases hi : parseAll P.parseInt (fieldsOf bytes pointers) with
      | ok zs => rw [hi] at hxs; simp at hxs
      | error e =>
        rw [hi] at hxs
        cases hr : parseAll (floatCell P) (fieldsOf bytes pointers) with
        | ok ys =>
          rw [hr] at hxs
          simp only [Result.ok.injEq, Column.floats.injEq] at hxs
          subst hxs
          exact float_entries P bytes pointers h ys ((parseAll_ok_iff _ _ _).1 hr)
        | error e2 =>
          rw [hr] at hxs
          cases hb : parseAll P.parseBool (fieldsOf bytes pointers) with
          | ok bs => rw [hb] at hxs; simp at hxs
          | error e3 => rw [hb] at hxs; simp at hxs
    · intro xs
      rw [columnToData_none_eq P bytes pointers true h,
        columnToData_none_eq P bytes pointers false h]
      cases parseAll P.parseInt (fieldsOf bytes pointers) with
      | ok zs => simp
      | error e =>
        cases parseAll (floatCell P) (fieldsOf bytes pointers) with
        | ok ys => simp
        | error e2 =>
          cases parseAll P.parseBool (fieldsOf bytes pointers) with
          | ok bs => simp
          | error e3 => simp
    · intro Q hnan hpi hpb hpf
      rw [columnToData_none_eq P bytes pointers emptyNull h,
        columnToData_none_eq Q bytes pointers emptyNull h, floatCell_congr P Q hnan hpf,
        hpi, hpb]
    · intro hall hint
      obtain ⟨xs, hxs⟩ := parseAll_ok_of_accepts (floatCell P) _
        ((accepts_floatCell_all P _).2 hall)
      rcases parseAll_cases P.parseInt (fieldsOf bytes pointers) with
        ⟨hi, _⟩ | ⟨_, e, he⟩
      · exact absurd hi (hint rfl)
      · exact ⟨xs, by rw [columnToData_none_eq P bytes pointers emptyNull h, he, hxs]⟩

/-- Witness of C4: the column 1.5, empty, 34 with no declared type and `emptyNull` set. -/
theorem columnToData_float_rule_witness :
    InBounds (lit "1.534") [⟨0, 3⟩, ⟨3, 3⟩, ⟨3, 5⟩] ∧
    (types.None = types.Float ∨ types.None = types.None) ∧
    ∃ xs, columnToData sampleParsers (lit "1.534") [⟨0, 3⟩, ⟨3, 3⟩, ⟨3, 5⟩] true types.None
      = Result.ok (Column.floats xs) :=
  ⟨by decide, Or.inr rfl,
   (columnToData_float_rule sampleParsers (lit "1.534") [⟨0, 3⟩, ⟨3, 3⟩, ⟨3, 5⟩] true types.None
      (by decide) (Or.inr rfl)).2.2.2 (by decide) (fun _ => by decide)⟩

/-- The cells of a text column, read off the fields. -/
theorem text_entries (bytes : Bytes) (pointers : List bytePointer) (emptyNull : Bool)
    (h : InBounds bytes pointers) :
    ((fieldsOf bytes pointers).map (textCell emptyNull)).length = pointers.length ∧
      ∀ (k : Nat) (p : bytePointer), pointers[k]? = some p →
        (p.start = p.end_ → emptyNull = true →
          ((fieldsOf bytes pointers).map (textCell emptyNull))[k]? = some none) ∧
        (p.start = p.end_ → emptyNull = false →
          ((fieldsOf bytes pointers).map (textCell emptyNull))[k]? = some (some [])) ∧
        (p.start ≠ p.end_ →
          ((fieldsOf bytes pointers).map (textCell emptyNull))[k]? = some (some (fieldAt bytes p))
            ∧ fieldAt bytes p ≠ []) ∧
        (((fieldsOf bytes pointers).map (textCell emptyNull))[k]? = some none →
          p.start = p.end_ ∧ emptyNull = true) := by
  refine ⟨by simp [fieldsOf], ?_⟩
  intro k p hk
  have hp : p.start ≤ p.end_ ∧ p.end_ ≤ bytes.length := h p (List.getElem?_mem hk)
  have hnil := fieldAt_eq_nil_iff bytes p hp
  have hget : ((fieldsOf bytes pointers).map (textCell emptyNull))[k]? =
      some (textCell emptyNull (fieldAt bytes p)) := by
    simp [fieldsOf, hk]
  rw [hget]
  refine ⟨?_, ?_, ?_, ?_⟩
  · intro he hn
    simp [textCell, hnil.2 he, hn]
  · intro he hn
    simp [textCell, hnil.2 he, hn]
  · intro hne
    have h0 : fieldAt bytes p ≠ [] := fun h0 => hne (hnil.1 h0)
    exact ⟨by simp [textCell, h0], h0⟩
  · intro hcell
    simp only [textCell, Option.some.injEq] at hcell
    by_cases hc : fieldAt bytes p = [] ∧ emptyNull = true
    · exact ⟨hnil.1 hc.1, hc.2⟩
    · rw [if_neg hc] at hcell
      exact absurd hcell (by simp)

/-- C5 (text conversion rule). For a column converted as text, declared string or reached as
the last step of inference: the conversion succeeds (always for a declared string; under
inference whenever the int, float and bool attempts have failed); the column has one cell per
row in row order; the cell of an empty field is absent when `emptyNull` is set and the present
empty string when it is not; the cell of a non-empty field is present and holds the bytes of
the field; an absent cell comes only from an empty field under `emptyNull`. -/
theorem columnToData_text_rule {F : Type} (P : Parsers F) (bytes : Bytes)
    (pointers : List bytePointer) (emptyNull : Bool) (dataType : DataType)
    (h : InBounds bytes pointers) (hT : dataType = types.String ∨ dataType = types.None) :
    (dataType = types.String →
      ∃ xs, columnToData P bytes pointers emptyNull dataType = Result.ok (Column.strings xs)) ∧
    (dataType = types.None →
      ¬ (∀ f ∈ fieldsOf bytes pointers, accepts P.parseInt f = true) →
      ¬ (∀ f ∈ fieldsOf bytes pointers, f = [] ∨ accepts P.parseFloat f = true) →
      ¬ (∀ f ∈ fieldsOf bytes pointers, accepts P.parseBool f = true) →
      ∃ xs, columnToData P bytes pointers emptyNull dataType = Result.ok (Column.strings xs)) ∧
    (∀ xs, columnToData P bytes pointers emptyNull dataType = Result.ok (Column.strings xs) →
      xs.length = pointers.length ∧
      ∀ (k : Nat) (p : bytePointer), pointers[k]? = some p →
        (p.start = p.end_ → emptyNull = true → xs[k]? = some none) ∧
        (p.start = p.end_ → emptyNull = false → xs[k]? = some (some [])) ∧
        (p.start ≠ p.end_ → xs[k]? = some (some (fieldAt bytes p)) ∧ fieldAt bytes p ≠ []) ∧
        (xs[k]? = some none → p.start = p.end_ ∧ emptyNull = true)) := by
  have hstr : ∀ xs, columnToData P bytes pointers emptyNull dataType =
      Result.ok (Column.strings xs) → xs = (fieldsOf bytes pointers).map (textCell emptyNull) := by
    intro xs hxs
    rcases hT with rfl | rfl
    · rw [columnToData_string_eq P bytes pointers emptyNull h] at hxs
      simp only [Result.ok.injEq, Column.strings.injEq] at hxs
      exact hxs.symm
    · rw [columnToData_none_eq P bytes pointers emptyNull h] at hxs
      cases hi : parseAll P.parseInt (fieldsOf bytes pointers) with
      | ok zs => rw [hi] at hxs; simp at hxs
      | error e =>
        rw [hi] at hxs
        cases hr : parseAll (floatCell P) (fieldsOf bytes pointers) with
        | ok ys => rw [hr] at hxs; simp at hxs
        | error e2 =>
          rw [hr] at hxs
          cases hb : parseAll P.parseBool (fieldsOf bytes pointers) with
          | ok bs => rw [hb] at hxs; simp at hxs
          | error e3 =>
            rw [hb] at hxs
            simp only [Result.ok.injEq, Column.strings.injEq] at hxs
            exact hxs.symm
  refine ⟨?_, ?_, ?_⟩
  · intro hd
    subst hd
    exact ⟨_, columnToData_string_eq P bytes pointers emptyNull h⟩
  · intro hd hi hf hb
    subst hd
    rw [← accepts_floatCell_all] at hf
    rcases parseAll_cases P.parseInt (fieldsOf bytes pointers) with ⟨hi2, _⟩ | ⟨_, e, he⟩
    · exact absurd hi2 hi
    rcases parseAll_cases (floatCell P) (fieldsOf bytes pointers) with ⟨hf2, _⟩ | ⟨_, e2, he2⟩
    · exact absurd hf2 hf
    rcases parseAll_cases P.parseBool (fieldsOf bytes pointers) with ⟨hb2, _⟩ | ⟨_, e3, he3⟩
    · exact absurd hb2 hb
    exact ⟨_, by rw [columnToData_none_eq P bytes pointers emptyNull h, he, he2, he3]⟩
  · intro xs hxs
    rw [hstr xs hxs]
    exact text_entries bytes pointers emptyNull h

/-- Witness of C5: the column a, empty under `emptyNull`, declared string. -/
theorem columnToData_text_rule_witness :
    InBounds (lit "a") [⟨0, 1⟩, ⟨1, 1⟩] ∧ (types.String = types.String ∨ types.String = types.None) ∧
    ∃ xs, columnToData sampleParsers (lit "a") [⟨0, 1⟩, ⟨1, 1⟩] true types.String
      = Result.ok (Column.strings xs) :=
  ⟨by decide, Or.inl rfl,
   (columnToData_text_rule sampleParsers (lit "a") [⟨0, 1⟩, ⟨1, 1⟩] true types.String
      (by decide) (Or.inl rfl)).1 rfl⟩

/-- C6 (a declared type fixes the result kind). For an in-bounds pointer list and a declared
type among int, float, bool, string, a successful `columnToData` returns a column of the
declared kind; declared float on fields that all parse as integers yields the float column of
the `parseFloat` values (NaN for empty fields) once `parseFloat` accepts them, and never an
int column; declared string yields the text column of the raw fields whatever `parseInt` and
`parseBool` make of them. -/
theorem columnToData_declared_kind {F : Type} (P : Parsers F) (bytes : Bytes)
    (pointers : List bytePointer) (emptyNull : Bool) (h : InBounds bytes pointers) :
    (∀ c, columnToData P bytes pointers emptyNull types.Int = Result.ok c →
      c.kind = Kind.int) ∧
    (∀ c, columnToData P bytes pointers emptyNull types.Float = Result.ok c →
      c.kind = Kind.float) ∧
    (∀ c, columnToData P bytes pointers emptyNull types.Bool = Result.ok c →
      c.kind = Kind.bool) ∧
    (∀ c, columnToData P bytes pointers emptyNull types.String = Result.ok c →
      c.kind = Kind.text) ∧
    ((∀ f ∈ fieldsOf bytes pointers, accepts P.parseInt f = true) →
      (∀ f ∈ fieldsOf bytes pointers, f = [] ∨ accepts P.parseFloat f = true) →
      ∃ xs, columnToData P bytes pointers emptyNull types.Float = Result.ok (Column.floats xs) ∧
        (fieldsOf bytes pointers).map (floatCell P) = xs.map Except.ok) ∧
    (columnToData P bytes pointers emptyNull types.String =
      Result.ok (Column.strings ((fieldsOf bytes pointers).map (textCell emptyNull)))) := by
  refine ⟨?_, ?_, ?_, ?_, ?_, ?_⟩
  · intro c hc
    rw [columnToData_int_eq P bytes pointers emptyNull h] at hc
    cases hr : parseAll P.parseInt (fieldsOf bytes pointers) with
    | error e => rw [hr] at hc; simp at hc
    | ok xs =>
      rw [hr] at hc
      simp only [Result.ok.injEq] at hc
      rw [← hc]; rfl
  · intro c hc
    rw [columnToData_float_eq P bytes pointers emptyNull h] at hc
    cases hr : parseAll (floatCell P) (fieldsOf bytes pointers) with
    | error e => rw [hr] at hc; simp at hc
    | ok xs =>
      rw [hr] at hc
      simp only [Result.ok.injEq] at hc
      rw [← hc]; rfl
  · intro c hc
    rw [columnToData_bool_eq P bytes pointers emptyNull h] at hc
    cases hr : parseAll P.parseBool (fieldsOf bytes pointers) with
    | error e => rw [hr] at hc; simp at hc
    | ok xs =>
      rw [hr] at hc
      simp only [Result.ok.injEq] at hc
      rw [← hc]; rfl
  · intro c hc
    rw [columnToData_string_eq P bytes pointers emptyNull h] at hc
    simp only [Result.ok.injEq] at hc
    rw [← hc]; rfl
  · intro _ hf
    obtain ⟨xs, hxs⟩ := parseAll_ok_of_accepts (floatCell P) _
      ((accepts_floatCell_all P _).2 hf)
    exact ⟨xs, by rw [columnToData_float_eq P bytes pointers emptyNull h, hxs],
      (parseAll_ok_iff _ _ _).1 hxs⟩
  · exact columnToData_string_eq P bytes pointers emptyNull h

/-- Witness of C6: the fields 3 and 2 declared float give a float column. -/
theorem columnToData_declared_kind_witness :
    InBounds (lit "32") [⟨0, 1⟩, ⟨1, 2⟩] ∧
    ∃ xs, columnToData sampleParsers (lit "32") [⟨0, 1⟩, ⟨1, 2⟩] false types.Float
        = Result.ok (Column.floats xs) ∧
      (fieldsOf (lit "32") [⟨0, 1⟩, ⟨1, 2⟩]).map (floatCell sampleParsers) = xs.map Except.ok :=
  ⟨by decide,
   (columnToData_declared_kind sampleParsers (lit "32") [⟨0, 1⟩, ⟨1, 2⟩] false
      (by decide)).2.2.2.2.1 (by decide) (by decide)⟩

/-- C7 (an unknown declared type is a hard error). For a declared type that is none of None,
Int, Float, Bool, String, `columnToData` returns, for every buffer, every pointer list (in
bounds or not, zero rows included), every `emptyNull` and whatever the parse helpers are, the
error with the message "unknown data type: " followed by the type, and no column. -/
theorem columnToData_unknown_type {F : Type} (P : Parsers F) (bytes : Bytes)
    (pointers : List bytePointer) (emptyNull : Bool) (dataType : DataType)
    (h0 : dataType ≠ types.None) (h1 : dataType ≠ types.Int) (h2 : dataType ≠ types.Float)
    (h3 : dataType ≠ types.Bool) (h4 : dataType ≠ types.String) :
    columnToData P bytes pointers emptyNull dataType =
      Result.err (errors.New "Create column" (lit "unknown data type: " ++ dataType)) :=
  columnToData_unknown_eq P bytes pointers emptyNull dataType h0 h1 h2 h3 h4

/-- Witness of C7: the declared type enum on the fields abc and def. -/
theorem columnToData_unknown_type_witness :
    (lit "enum" ≠ types.None ∧ lit "enum" ≠ types.Int ∧ lit "enum" ≠ types.Float ∧
      lit "enum" ≠ types.Bool ∧ lit "enum" ≠ types.String) ∧
    columnToData sampleParsers (lit "abcdef") [⟨0, 3⟩, ⟨3, 6⟩] false (lit "enum") =
      Result.err (errors.New "Create column" (lit "unknown data type: " ++ lit "enum")) :=
  ⟨by decide,
   columnToData_unknown_type sampleParsers (lit "abcdef") [⟨0, 3⟩, ⟨3, 6⟩] false (lit "enum")
     (by decide) (by decide) (by decide) (by decide) (by decide)⟩

/-! ## The collection loop of `ReadCsv` -/

theorem fieldFor_nil (i j : Nat) : fieldFor [] i j = none := by
  simp [fieldFor]

theorem fieldFor_cons_self (col : Bytes) (rest : List Bytes) (i : Nat) :
    fieldFor (col :: rest) i i = some col := by
  simp [fieldFor]

theorem fieldFor_succ_self (rest : List Bytes) (i : Nat) : fieldFor rest (i + 1) i = none := by
  simp [fieldFor]

theorem fieldFor_cons_ne (col : Bytes) (rest : List Bytes) (i j : Nat) (h : j ≠ i) :
    fieldFor (col :: rest) i j = fieldFor rest (i + 1) j := by
  unfold fieldFor
  by_cases hij : i ≤ j
  · have h1 : i + 1 ≤ j := by omega
    have h2 : j - i = (j - (i + 1)) + 1 := by omega
    rw [if_pos hij, if_pos h1, h2, List.getElem?_cons_succ]
  · have h1 : ¬ (i + 1 ≤ j) := by omega
    rw [if_neg hij, if_neg h1]

theorem fieldFor_zero (fs : List Bytes) (j : Nat) : fieldFor fs 0 j = fs[j]? := by
  simp [fieldFor]

/-- One row of the collection loop: when the row has no more fields than there are columns
left, nothing panics, and every column `j` gains the field of the row that goes to it (if
any) and the pointer of that field. -/
theorem collectFields_spec (n : Nat) :
    ∀ (fs : List Bytes) (i : Nat) (cb : List Bytes) (cp : List (List bytePointer)),
      cb.length = n → cp.length = n → i + fs.length ≤ n →
      ∃ cb1 cp1, collectFields fs i (cb, cp) = some (cb1, cp1) ∧
        cb1.length = n ∧ cp1.length = n ∧
        ∀ (j : Nat) (b : Bytes) (ps : List bytePointer), cb[j]? = some b → cp[j]? = some ps →
          cb1[j]? = some (b ++ (fieldFor fs i j).getD []) ∧
          cp1[j]? = some (ps ++ pointersFrom b.length (fieldFor fs i j).toList) := by
  intro fs
  induction fs with
  | nil =>
    intro i cb cp hcb hcp _
    refine ⟨cb, cp, rfl, hcb, hcp, ?_⟩
    intro j b ps hb hps
    simp [fieldFor_nil, pointersFrom, hb, hps]
  | cons col rest ih =>
    intro i cb cp hcb hcp hlen
    simp only [List.length_cons] at hlen
    have hi : i < n := by omega
    have hbi : cb[i]? = some cb[i] := List.getElem?_eq_getElem (by omega)
    have hpi : cp[i]? = some cp[i] := List.getElem?_eq_getElem (by omega)
    obtain ⟨cb1, cp1, hrun, hl1, hl2, hspec⟩ :=
      ih (i + 1) (cb.set i (cb[i] ++ col))
        (cp.set i (cp[i] ++
          [{ start := cb[i].length % 2 ^ 32, end_ := (cb[i] ++ col).length % 2 ^ 32 }]))
        (by simp [hcb]) (by simp [hcp]) (by omega)
    refine ⟨cb1, cp1, ?_, hl1, hl2, ?_⟩
    · simp only [collectFields, hbi, hpi]
      exact hrun
    · intro j b ps hb hps
      by_cases hj : j = i
      · subst hj
        rw [hbi] at hb
        rw [hpi] at hps
        simp only [Option.some.injEq] at hb hps
        have := hspec j (cb[j] ++ col) _
          (List.getElem?_set_self (by omega)) (List.getElem?_set_self (by omega))
        rw [fieldFor_succ_self] at this
        rw [fieldFor_cons_self, ← hb, ← hps]
        simpa [pointersFrom] using this
      · have hne : i ≠ j := fun h => hj h.symm
        have := hspec j b ps (by rw [List.getElem?_set_ne hne]; exact hb)
          (by rw [List.getElem?_set_ne hne]; exact hps)
        rw [fieldFor_cons_ne col rest i j hj]
        exact this

theorem colFields_cons (row : Row) (rest : List Row) (j : Nat) :
    colFields (row :: rest) j = (row.fields[j]?).toList ++ colFields rest j := by
  unfold colFields
  cases h : row.fields[j]? <;> simp [List.filterMap_cons, h]

theorem pointersFrom_append_toList (s : Nat) (o : Option Bytes) (fs : List Bytes) :
    pointersFrom s (o.toList ++ fs) =
      pointersFrom s o.toList ++ pointersFrom (s + (o.getD []).length) fs := by
  cases o <;> simp [pointersFrom]

/-- The collection loop: when no row carries an error and no row has more fields than the
header, the loop ends normally, and column `j` holds the bytes of its fields one after the
other, with one pointer per field. -/
theorem collectRows_spec (n : Nat) :
    ∀ (rows : List Row) (cb : List Bytes) (cp : List (List bytePointer)),
      cb.length = n → cp.length = n →
      (∀ row ∈ rows, row.err = none ∧ row.fields.length ≤ n) →
      ∃ cb1 cp1, collectRows rows (cb, cp) = Result.ok (cb1, cp1) ∧
        cb1.length = n ∧ cp1.length = n ∧
        ∀ (j : Nat) (b : Bytes) (ps : List bytePointer), cb[j]? = some b → cp[j]? = some ps →
          cb1[j]? = some (b ++ (colFields rows j).flatten) ∧
          cp1[j]? = some (ps ++ pointersFrom b.length (colFields rows j)) := by
  intro rows
  induction rows with
  | nil =>
    intro cb cp hcb hcp _
    refine ⟨cb, cp, rfl, hcb, hcp, ?_⟩
    intro j b ps hb hps
    simp [colFields, pointersFrom, hb, hps]
  | cons row rest ih =>
    intro cb cp hcb hcp hrows
    obtain ⟨herr, hlen⟩ := hrows row (List.mem_cons_self row rest)
    obtain ⟨cb1, cp1, hrun1, hl1, hl2, hspec1⟩ :=
      collectFields_spec n row.fields 0 cb cp hcb hcp (by omega)
    obtain ⟨cb2, cp2, hrun2, hl3, hl4, hspec2⟩ :=
      ih cb1 cp1 hl1 hl2 (fun r hr => hrows r (List.mem_cons_of_mem row hr))
    refine ⟨cb2, cp2, ?_, hl3, hl4, ?_⟩
    · simp only [collectRows, herr, hrun1]
      exact hrun2
    · intro j b ps hb hps
      obtain ⟨h1, h2⟩ := hspec1 j b ps hb hps
      obtain ⟨h3, h4⟩ := hspec2 j _ _ h1 h2
      rw [fieldFor_zero] at h3 h4
      rw [h3, h4, colFields_cons, pointersFrom_append_toList]
      constructor
      · cases row.fields[j]? <;> simp
      · simp [List.append_assoc]

/-- Below 2^32 the recorded pointers are exact: they tile the appended bytes. -/
theorem pointersFrom_bounds :
    ∀ (fs : List Bytes) (s : Nat), s + (fs.map List.length).sum < 2 ^ 32 →
      ∀ p ∈ pointersFrom s fs,
        s ≤ p.start ∧ p.start ≤ p.end_ ∧ p.end_ ≤ s + (fs.map List.length).sum := by
  intro fs
  induction fs with
  | nil => intro s _ p hp; simp [pointersFrom] at hp
  | cons f fs ih =>
    intro s hs p hp
    simp only [List.map_cons, List.sum_cons] at hs ⊢
    simp only [pointersFrom, List.mem_cons] at hp
    rcases hp with rfl | hp
    · have h1 : s % 2 ^ 32 = s := Nat.mod_eq_of_lt (by omega)
      have h2 : (s + f.length) % 2 ^ 32 = s + f.length := Nat.mod_eq_of_lt (by omega)
      simp only [h1, h2]
      omega
    · have := ih (s + f.length) (by omega) p hp
      omega

theorem pointersFrom_inBounds (fs : List Bytes) (h : (fs.map List.length).sum < 2 ^ 32) :
    InBounds fs.flatten (pointersFrom 0 fs) := by
  intro p hp
  have := pointersFrom_bounds fs 0 (by omega) p hp
  rw [List.length_flatten]
  omega

theorem columnToData_none_ok {F : Type} (P : Parsers F) (bytes : Bytes)
    (pointers : List bytePointer) (emptyNull : Bool) (h : InBounds bytes pointers) :
    ∃ c, columnToData P bytes pointers emptyNull types.None = Result.ok c := by
  rw [columnToData_none_eq P bytes pointers emptyNull h]
  cases parseAll P.parseInt (fieldsOf bytes pointers) with
  | ok xs => exact ⟨_, rfl⟩
  | error e =>
    cases parseAll (floatCell P) (fieldsOf bytes pointers) with
    | ok ys => exact ⟨_, rfl⟩
    | error e2 =>
      cases parseAll P.parseBool (fieldsOf bytes pointers) with
      | ok zs => exact ⟨_, rfl⟩
      | error e3 => exact ⟨_, rfl⟩

theorem typeOf_empty (header : GoString) : typeOf [] header = types.None := rfl

/-- The conversion loop cannot fail when every remaining column is in bounds and has no
declared type. -/
theorem convertColumns_none_ok {F : Type} (P : Parsers F) (emptyNull : Bool)
    (declared : GoMap DataType) (cb : List Bytes) (cp : List (List bytePointer)) :
    ∀ (hs : List GoString) (i : Nat) (m : GoMap (Column F)),
      (∀ j, i ≤ j → j < i + hs.length →
        ∃ b ps, cb[j]? = some b ∧ cp[j]? = some ps ∧ InBounds b ps) →
      (∀ header ∈ hs, typeOf declared header = types.None) →
      ∃ m1, convertColumns P emptyNull declared cb cp hs i m = Result.ok m1 := by
  intro hs
  induction hs with
  | nil => intro i m _ _; exact ⟨m, rfl⟩
  | cons header rest ih =>
    intro i m hcols htypes
    obtain ⟨b, ps, hb, hps, hin⟩ := hcols i (Nat.le_refl i) (by simp)
    obtain ⟨c, hc⟩ := columnToData_none_ok P b ps emptyNull hin
    have ht := htypes header (List.mem_cons_self header rest)
    obtain ⟨m1, hm1⟩ := ih (i + 1) (GoMap.set m header c)
      (fun j h1 h2 => hcols j (by omega) (by simp only [List.length_cons]; omega))
      (fun x hx => htypes x (List.mem_cons_of_mem header hx))
    exact ⟨m1, by simp only [convertColumns, hb, hps, ht, hc]; exact hm1⟩

/-- Untyped ingestion of an input whose rows have at most header-many fields and whose
columns stay below 2^32 bytes returns a data map and the header list. -/
theorem ReadCsv_untyped_ok {F : Type} (P : Parsers F) (r : Reader) (emptyNull : Bool)
    (declared : GoMap DataType) (byteHeader : List Bytes)
    (hheader : r.header = Except.ok byteHeader)
    (hrows : ∀ row ∈ r.rows, row.err = none ∧ row.fields.length ≤ byteHeader.length)
    (hsize : ∀ j, j < byteHeader.length →
      ((colFields r.rows j).map List.length).sum < 2 ^ 32)
    (htypes : ∀ header ∈ byteHeader, typeOf declared header = types.None) :
    ∃ dataMap, ReadCsv P r emptyNull declared = Result.ok (dataMap, byteHeader) := by
  obtain ⟨cb1, cp1, hrun, hl1, hl2, hspec⟩ :=
    collectRows_spec byteHeader.length r.rows (List.replicate byteHeader.length [])
      (List.replicate byteHeader.length []) (by simp) (by simp) hrows
  have hcols : ∀ j, 0 ≤ j → j < 0 + byteHeader.length →
      ∃ b ps, cb1[j]? = some b ∧ cp1[j]? = some ps ∧ InBounds b ps := by
    intro j _ hj
    have hj2 : j < byteHeader.length := by omega
    obtain ⟨h1, h2⟩ := hspec j [] [] (by simp [hj2]) (by simp [hj2])
    refine ⟨_, _, h1, h2, ?_⟩
    simpa using pointersFrom_inBounds (colFields r.rows j) (hsize j hj2)
  obtain ⟨m1, hm1⟩ := convertColumns_none_ok P emptyNull declared cb1 cp1 byteHeader 0 [] hcols htypes
  exact ⟨m1, by simp only [ReadCsv, hheader, hrun, hm1]⟩

/-! ## Properties of `ReadCsv` -/

theorem bigField_length : bigField.length = 2 ^ 32 - 1 := by
  unfold bigField
  exact List.length_replicate _ _

/-- A column whose second pointer has wrapped around (end before start) makes the untyped
conversion panic, whatever the parse helpers do. -/
theorem columnToData_none_panic {F : Type} (P : Parsers F) (bytes : Bytes)
    (p1 p2 : bytePointer) (emptyNull : Bool)
    (h1 : p1.start < p1.end_ ∧ p1.end_ ≤ bytes.length) (h2 : p2.end_ < p2.start) :
    columnToData P bytes [p1, p2] emptyNull types.None = Result.panic := by
  have hs1 : sliceOf bytes p1 = some (fieldAt bytes p1) :=
    sliceOf_of_bounds bytes p1 ⟨by omega, h1.2⟩
  have hs2 : sliceOf bytes p2 = none := by
    simp only [sliceOf]
    rw [if_neg (by omega)]
  have hne1 : p1.start ≠ p1.end_ := by omega
  have hne2 : p2.start ≠ p2.end_ := by omega
  obtain ⟨d1, d2, d3, d4, -⟩ := types_distinct
  cases hi : P.parseInt (fieldAt bytes p1) <;> cases hf : P.parseFloat (fieldAt bytes p1) <;>
    cases hb : P.parseBool (fieldAt bytes p1) <;>
    simp [columnToData, intStage, floatStage, boolStage, stringStage, intLoop, floatLoop,
      boolLoop, stringLoop, hs1, hs2, hi, hf, hb, hne1, hne2, d1.symm, d2.symm, d3.symm, d4.symm]

theorem columnToData_wrapped_panic {F : Type} (P : Parsers F) (bytes : Bytes)
    (s1 e1 s2 e2 : Nat) (emptyNull : Bool)
    (h1 : s1 < e1 ∧ e1 ≤ bytes.length) (h2 : e2 < s2) :
    columnToData P bytes [{ start := s1, end_ := e1 }, { start := s2, end_ := e2 }] emptyNull
      types.None = Result.panic :=
  columnToData_none_panic P bytes { start := s1, end_ := e1 } { start := s2, end_ := e2 }
    emptyNull h1 h2

theorem pointersFrom_two (f1 f2 : Bytes) :
    pointersFrom 0 [f1, f2] =
      [{ start := 0 % 2 ^ 32, end_ := (0 + f1.length) % 2 ^ 32 },
       { start := (0 + f1.length) % 2 ^ 32,
         end_ := (0 + f1.length + f2.length) % 2 ^ 32 }] := rfl

/-- Untyped ingestion of a one-column input panics when the conversion of the column does. -/
theorem ReadCsv_panic_of_column {F : Type} (P : Parsers F) (r : Reader) (emptyNull : Bool)
    (header : GoString) (cb : List Bytes) (cp : List (List bytePointer)) (b : Bytes)
    (ps : List bytePointer) (hheader : r.header = Except.ok [header])
    (hrun : collectRows r.rows ([[]], [[]]) = Result.ok (cb, cp))
    (hb : cb[0]? = some b) (hp : cp[0]? = some ps)
    (hconv : columnToData P b ps emptyNull types.None = Result.panic) :
    ReadCsv P r emptyNull [] = Result.panic := by
  have hrun2 : collectRows r.rows
      (List.replicate [header].length [], List.replicate [header].length []) =
      Result.ok (cb, cp) := hrun
  simp only [ReadCsv, hheader, hrun2, convertColumns, hb, hp, typeOf_empty, hconv]

/-- Ingestion of `bigReader` panics, whatever the parse helpers and `emptyNull` are: the
second pointer of the column has wrapped around uint32, so its slice is out of range. -/
theorem ReadCsv_bigReader_panic {F : Type} (P : Parsers F) (emptyNull : Bool) :
    ReadCsv P bigReader emptyNull [] = Result.panic := by
  obtain ⟨cb1, cp1, hrun, hl1, hl2, hspec⟩ :=
    collectRows_spec 1 bigReader.rows [[]] [[]] rfl rfl (by simp [bigReader])
  obtain ⟨hb, hp⟩ := hspec 0 [] [] rfl rfl
  have hcol : colFields bigReader.rows 0 = [bigField, lit "12"] := by
    simp [colFields, bigReader]
  have hlit : (lit "12").length = 2 := by decide
  rw [hcol] at hb hp
  rw [List.nil_append, List.flatten_cons, List.flatten_cons, List.flatten_nil,
    List.append_nil] at hb
  rw [List.nil_append, List.length_nil, pointersFrom_two] at hp
  have hconv := columnToData_wrapped_panic P (bigField ++ lit "12") (0 % 2 ^ 32)
    ((0 + bigField.length) % 2 ^ 32) ((0 + bigField.length) % 2 ^ 32)
    ((0 + bigField.length + (lit "12").length) % 2 ^ 32) emptyNull
    (by
      rw [List.length_append, bigField_length, hlit]
      norm_num)
    (by
      rw [bigField_length, hlit]
      norm_num)
  exact ReadCsv_panic_of_column P bigReader emptyNull (lit "a") cb1 cp1 _ _ rfl hrun hb hp hconv

theorem collectRows_append (pre rest : List Row) :
    ∀ (st : List Bytes × List (List bytePointer)),
      collectRows (pre ++ rest) st =
        match collectRows pre st with
        | Result.ok st1 => collectRows rest st1
        | Result.err e => Result.err e
        | Result.panic => Result.panic := by
  induction pre with
  | nil => intro st; rfl
  | cons row pre ih =>
    intro st
    simp only [List.cons_append, collectRows]
    cases row.err with
    | some e => rfl
    | none =>
      cases collectFields row.fields 0 st with
      | none => rfl
      | some st1 => exact ih st1

/-- An error of the first `r.Read()` is returned as it is. -/
theorem ReadCsv_header_error {F : Type} (P : Parsers F) (r : Reader) (emptyNull : Bool)
    (declared : GoMap DataType) (e : Error) (hheader : r.header = Except.error e) :
    ReadCsv P r emptyNull declared = Result.err e := by
  simp only [ReadCsv, hheader]

/-- An error that `r.Err()` shows after a `r.Next()` that returned true is returned as it
is, provided no earlier row has more fields than the header. -/
theorem ReadCsv_row_error {F : Type} (P : Parsers F) (r : Reader) (emptyNull : Bool)
    (declared : GoMap DataType) (byteHeader : List Bytes) (pre post : List Row) (row : Row)
    (e : Error) (hheader : r.header = Except.ok byteHeader)
    (hrows : r.rows = pre ++ row :: post)
    (hpre : ∀ x ∈ pre, x.err = none ∧ x.fields.length ≤ byteHeader.length)
    (herr : row.err = some e) :
    ReadCsv P r emptyNull declared = Result.err e := by
  obtain ⟨cb1, cp1, hrun, -, -, -⟩ :=
    collectRows_spec byteHeader.length pre (List.replicate byteHeader.length [])
      (List.replicate byteHeader.length []) (by simp) (by simp) hpre
  have hall : collectRows r.rows
      (List.replicate byteHeader.length [], List.replicate byteHeader.length []) =
      Result.err e := by
    rw [hrows, collectRows_append, hrun]
    simp only [collectRows, herr]
  simp only [ReadCsv, hheader, hall]

/-- What `r.Err()` holds once `r.Next()` has returned false has no influence on `ReadCsv`. -/
theorem ReadCsv_finalErr_unread {F : Type} (P : Parsers F) (r : Reader) (emptyNull : Bool)
    (declared : GoMap DataType) (e : Option Error) :
    ReadCsv P { r with finalErr := e } emptyNull declared = ReadCsv P r emptyNull declared :=
  rfl

/-- C3 (ragged rows), the code at the failing inputs. A data row with fewer fields than the
header is accepted: ingestion succeeds with the column foo of two rows and the column bar of
one row. A data row with more fields than the header makes `colBytes[i]` panic; neither case
returns an error. -/
theorem ReadCsv_ragged_rows_not_rejected :
    ReadCsv sampleParsers shortRowReader false [] =
        Result.ok ([(lit "foo", Column.ints [1, 3]), (lit "bar", Column.ints [2])],
          [lit "foo", lit "bar"]) ∧
      ReadCsv sampleParsers longRowReader false [] = Result.panic :=
  ⟨by decide, by decide⟩

/-- C8 (tokenizer errors), the code at the failing input. The tokenizer ended the iteration
on a read error (`r.Next()` false, `r.Err()` non-nil); `ReadCsv` returns the rows read so far
with a nil error. -/
theorem ReadCsv_final_error_dropped :
    brokenStreamReader.finalErr = some (Error.raised (lit "unexpected EOF")) ∧
      ReadCsv sampleParsers brokenStreamReader false [] =
        Result.ok ([(lit "foo", Column.ints [1])], [lit "foo"]) := by
  decide

/-- C9 as stated fails: `bigReader` reports no error and each of its rows has exactly one
field, like its header, yet untyped ingestion panics for both values of `emptyNull`, since
the column takes 2^32 + 1 bytes and its second pointer wraps around. -/
theorem ReadCsv_untyped_rectangular_panics :
    bigReader.header = Except.ok [lit "a"] ∧
      (∀ row ∈ bigReader.rows, row.err = none ∧ row.fields.length = [lit "a"].length) ∧
      bigReader.finalErr = none ∧
      ReadCsv sampleParsers bigReader false [] = Result.panic ∧
      ReadCsv sampleParsers bigReader true [] = Result.panic :=
  ⟨rfl, by simp [bigReader], rfl, ReadCsv_bigReader_panic sampleParsers false,
    ReadCsv_bigReader_panic sampleParsers true⟩

/-- C9, amended (untyped ingestion of rectangular input below 2^32 bytes per column cannot
fail). When the tokenizer reports no error, every data row has exactly as many fields as the
header, the fields of every column take less than 2^32 bytes in total and the declared-type
map is empty, `ReadCsv` returns a data map, the header list and a nil error, for either
`emptyNull` and whatever errors the int, float and bool attempts raised. -/
theorem ReadCsv_untyped_rectangular_ok {F : Type} (P : Parsers F) (r : Reader)
    (emptyNull : Bool) (byteHeader : List Bytes)
    (hheader : r.header = Except.ok byteHeader)
    (hnoerr : (∀ row ∈ r.rows, row.err = none) ∧ r.finalErr = none)
    (hrect : ∀ row ∈ r.rows, row.fields.length = byteHeader.length)
    (hsize : ∀ j, j < byteHeader.length →
      ((colFields r.rows j).map List.length).sum < 2 ^ 32) :
    ∃ dataMap, ReadCsv P r emptyNull [] = Result.ok (dataMap, byteHeader) :=
  ReadCsv_untyped_ok P r emptyNull [] byteHeader hheader
    (fun row hrow => ⟨hnoerr.1 row hrow, Nat.le_of_eq (hrect row hrow)⟩) hsize
    (fun header _ => typeOf_empty header)

/-- Witness of the amended C9: the base test input foo,bar / 1,2 / 3,4. -/
theorem ReadCsv_untyped_rectangular_ok_witness :
    baseReader.header = Except.ok [lit "foo", lit "bar"] ∧
      ((∀ row ∈ baseReader.rows, row.err = none) ∧ baseReader.finalErr = none) ∧
      (∀ row ∈ baseReader.rows, row.fields.length = [lit "foo", lit "bar"].length) ∧
      (∀ j, j < [lit "foo", lit "bar"].length →
        ((colFields baseReader.rows j).map List.length).sum < 2 ^ 32) ∧
      ∃ dataMap, ReadCsv sampleParsers baseReader true [] =
        Result.ok (dataMap, [lit "foo", lit "bar"]) :=
  ⟨rfl, by decide, by decide, by decide,
   ReadCsv_untyped_rectangular_ok sampleParsers baseReader true [lit "foo", lit "bar"] rfl
     (by decide) (by decide) (by decide)⟩

/-- C10 (equal column lengths), the code at the failing input. The tokenizer yields three data
rows, the second and third shorter than the header; `ReadCsv` succeeds with the column a of
three rows and the column b of one row. -/
theorem ReadCsv_uneven_columns :
    unevenReader.rows.length = 3 ∧
      ReadCsv sampleParsers unevenReader false [] =
        Result.ok ([(lit "a", Column.strings [some (lit "x"), some (lit "z"), some (lit "w")]),
            (lit "b", Column.strings [some (lit "y")])], [lit "a", lit "b"]) ∧
      (Column.strings [some (lit "x"), some (lit "z"), some (lit "w")] : Column SampleFloat).length
        = 3 ∧
      (Column.strings [some (lit "y")] : Column SampleFloat).length = 1 := by
  decide

/-! ## Go maps and the conversion loop of `ReadCsv` -/

theorem GoMap.get_set {V : Type} (m : GoMap V) (k : GoString) (v : V) (x : GoString) :
    GoMap.get (GoMap.set m k v) x = if x = k then some v else GoMap.get m x := by
  induction m with
  | nil =>
    by_cases hx : x = k
    · simp [GoMap.get, GoMap.set, hx]
    · have hk : ¬ k = x := fun h => hx h.symm
      simp [GoMap.get, GoMap.set, hx, hk]
  | cons a m ih =>
    simp only [GoMap.get, GoMap.set] at ih ⊢
    by_cases hak : a.1 = k
    · by_cases hx : x = k
      · simp only [List.filter_cons, hak, beq_self_eq_true, Bool.not_true, Bool.false_eq_true,
          if_false]
        rw [ih, if_pos hx, if_pos hx]
      · have hax : ¬ a.1 = x := fun h => hx (h ▸ hak)
        simp only [List.filter_cons, hak, beq_self_eq_true, Bool.not_true, Bool.false_eq_true,
          if_false]
        have hbeq : (a.1 == x) = false := by simpa using hax
        rw [ih, List.find?_cons, hbeq]
    · have hne : (!(a.1 == k)) = true := by simpa using hak
      simp only [List.filter_cons, hne, if_true, List.cons_append, List.find?_cons]
      by_cases hax : a.1 = x
      · have hx : ¬ x = k := fun h => hak (hax ▸ h)
        simp [hax, hx]
      · have : (a.1 == x) = false := by simpa using hax
        simp only [this]
        exact ih

theorem GoMap.mem_keys_set {V : Type} (m : GoMap V) (k : GoString) (v : V) (x : GoString) :
    x ∈ GoMap.keys (GoMap.set m k v) ↔ x ∈ GoMap.keys m ∨ x = k := by
  unfold GoMap.keys GoMap.set
  simp only [List.map_append, List.mem_append, List.mem_map, List.mem_filter, List.map_cons,
    List.map_nil, List.mem_singleton]
  constructor
  · rintro (⟨a, ⟨ha, _⟩, rfl⟩ | h)
    · exact Or.inl ⟨a, ha, rfl⟩
    · exact Or.inr h
  · rintro (⟨a, ha, rfl⟩ | h)
    · by_cases hk : a.1 = k
      · exact Or.inr hk
      · exact Or.inl ⟨a, ⟨ha, by simp [hk]⟩, rfl⟩
    · exact Or.inr h

theorem GoMap.nodup_keys_set {V : Type} (m : GoMap V) (k : GoString) (v : V)
    (h : (GoMap.keys m).Nodup) : (GoMap.keys (GoMap.set m k v)).Nodup := by
  unfold GoMap.keys GoMap.set at *
  rw [List.map_append, List.nodup_append]
  refine ⟨(h.sublist (List.Sublist.map _ (List.filter_sublist m))), by simp, ?_⟩
  intro a ha hb
  simp only [List.map_cons, List.map_nil, List.mem_singleton] at hb
  subst hb
  simp only [List.mem_map, List.mem_filter] at ha
  obtain ⟨b, ⟨_, hb⟩, hba⟩ := ha
  simp [hba] at hb

theorem convertColumns_cons {F : Type} (P : Parsers F) (emptyNull : Bool)
    (declared : GoMap DataType) (cb : List Bytes) (cp : List (List bytePointer))
    (header : GoString) (rest : List GoString) (i : Nat) (m : GoMap (Column F)) :
    convertColumns P emptyNull declared cb cp (header :: rest) i m =
      match convertAt P emptyNull declared cb cp i header with
      | Result.ok data =>
        convertColumns P emptyNull declared cb cp rest (i + 1) (GoMap.set m header data)
      | Result.err e => Result.err e
      | Result.panic => Result.panic := by
  simp only [convertColumns, convertAt]
  cases cb[i]? <;> cases cp[i]? <;> rfl

/-- A successful conversion loop: every column converted, the names outside the header keep
their entry, every header name holds the data of the last column of that name, and the keys
stay distinct. -/
theorem convertColumns_spec {F : Type} (P : Parsers F) (emptyNull : Bool)
    (declared : GoMap DataType) (cb : List Bytes) (cp : List (List bytePointer)) :
    ∀ (hs : List GoString) (i : Nat) (m m1 : GoMap (Column F)),
      convertColumns P emptyNull declared cb cp hs i m = Result.ok m1 →
      (∀ (k : Nat) (header : GoString), hs[k]? = some header →
        ∃ c, convertAt P emptyNull declared cb cp (i + k) header = Result.ok c) ∧
      (∀ name, name ∉ hs → GoMap.get m1 name = GoMap.get m name) ∧
      (∀ (k : Nat) (header : GoString), hs[k]? = some header →
        (∀ j, k < j → hs[j]? ≠ some header) →
        ∃ c, convertAt P emptyNull declared cb cp (i + k) header = Result.ok c ∧
          GoMap.get m1 header = some c) ∧
      (∀ x, x ∈ GoMap.keys m1 ↔ x ∈ GoMap.keys m ∨ x ∈ hs) ∧
      ((GoMap.keys m).Nodup → (GoMap.keys m1).Nodup) := by
  intro hs
  induction hs with
  | nil =>
    intro i m m1 h
    simp only [convertColumns, Result.ok.injEq] at h
    subst h
    refine ⟨?_, fun _ _ => rfl, ?_, by simp, fun h => h⟩
    · intro k header hk; simp at hk
    · intro k header hk; simp at hk
  | cons header rest ih =>
    intro i m m1 h
    rw [convertColumns_cons] at h
    cases hc : convertAt P emptyNull declared cb cp i header with
    | err e => rw [hc] at h; simp at h
    | panic => rw [hc] at h; simp at h
    | ok data =>
      rw [hc] at h
      obtain ⟨h1, h2, h3, h4, h5⟩ := ih (i + 1) (GoMap.set m header data) m1 h
      refine ⟨?_, ?_, ?_, ?_, ?_⟩
      · intro k x hk
        cases k with
        | zero =>
          simp only [List.getElem?_cons_zero, Option.some.injEq] at hk
          subst hk
          exact ⟨data, hc⟩
        | succ k =>
          have := h1 k x (by simpa using hk)
          rwa [show i + 1 + k = i + (k + 1) by omega] at this
      · intro name hname
        simp only [List.mem_cons, not_or] at hname
        rw [h2 name hname.2, GoMap.get_set, if_neg hname.1]
      · intro k x hk hlast
        cases k with
        | zero =>
          simp only [List.getElem?_cons_zero, Option.some.injEq] at hk
          subst hk
          refine ⟨data, hc, ?_⟩
          have hnot : header ∉ rest := by
            intro hmem
            obtain ⟨j, hj⟩ := List.mem_iff_getElem?.1 hmem
            exact hlast (j + 1) (Nat.succ_pos j) (by simpa using hj)
          rw [h2 header hnot, GoMap.get_set, if_pos rfl]
        | succ k =>
          have := h3 k x (by simpa using hk)
            (fun j hj => by
              have := hlast (j + 1) (by omega)
              simpa using this)
          rwa [show i + 1 + k = i + (k + 1) by omega] at this
      · intro x
        rw [h4 x, GoMap.mem_keys_set, List.mem_cons]
        tauto
      · intro hnd
        exact h5 (GoMap.nodup_keys_set m header data hnd)

theorem convertColumns_ok_of_all {F : Type} (P : Parsers F) (emptyNull : Bool)
    (declared : GoMap DataType) (cb : List Bytes) (cp : List (List bytePointer)) :
    ∀ (hs : List GoString) (i : Nat) (m : GoMap (Column F)),
      (∀ (k : Nat) (header : GoString), hs[k]? = some header →
        ∃ c, convertAt P emptyNull declared cb cp (i + k) header = Result.ok c) →
      ∃ m1, convertColumns P emptyNull declared cb cp hs i m = Result.ok m1 := by
  intro hs
  induction hs with
  | nil => intro i m _; exact ⟨m, rfl⟩
  | cons header rest ih =>
    intro i m hall
    obtain ⟨c, hc⟩ := hall 0 header (by simp)
    rw [Nat.add_zero] at hc
    obtain ⟨m1, hm1⟩ := ih (i + 1) (GoMap.set m header c) (fun k x hk => by
      have := hall (k + 1) x (by simpa using hk)
      rwa [show i + (k + 1) = i + 1 + k by omega] at this)
    exact ⟨m1, by rw [convertColumns_cons, hc]; exact hm1⟩

/-- The conversion loop returns the error of the first column whose conversion fails. -/
theorem convertColumns_first_error {F : Type} (P : Parsers F) (emptyNull : Bool)
    (declared : GoMap DataType) (cb : List Bytes) (cp : List (List bytePointer)) :
    ∀ (hs : List GoString) (i : Nat) (m : GoMap (Column F)) (k : Nat) (header : GoString)
      (e : Error), hs[k]? = some header →
      convertAt P emptyNull declared cb cp (i + k) header = Result.err e →
      (∀ (j : Nat) (x : GoString), j < k → hs[j]? = some x →
        ∃ c, convertAt P emptyNull declared cb cp (i + j) x = Result.ok c) →
      convertColumns P emptyNull declared cb cp hs i m = Result.err e := by
  intro hs
  induction hs with
  | nil => intro i m k header e hk; simp at hk
  | cons x rest ih =>
    intro i m k header e hk herr hprev
    rw [convertColumns_cons]
    cases k with
    | zero =>
      simp only [List.getElem?_cons_zero, Option.some.injEq] at hk
      subst hk
      rw [Nat.add_zero] at herr
      rw [herr]
    | succ k =>
      obtain ⟨c, hc⟩ := hprev 0 x (Nat.succ_pos k) (by simp)
      rw [Nat.add_zero] at hc
      rw [hc]
      exact ih (i + 1) _ k header e (by simpa using hk)
        (by rwa [show i + 1 + k = i + (k + 1) by omega])
        (fun j y hj hy => by
          have := hprev (j + 1) y (by omega) (by simpa using hy)
          rwa [show i + (j + 1) = i + 1 + j by omega] at this)

theorem ReadCsv_of_collected {F : Type} (P : Parsers F) (r : Reader) (emptyNull : Bool)
    (declared : GoMap DataType) (hdr : List Bytes) (cb : List Bytes)
    (cp : List (List bytePointer)) (hheader : r.header = Except.ok hdr)
    (hrun : collectRows r.rows (List.replicate hdr.length [], List.replicate hdr.length []) =
      Result.ok (cb, cp)) :
    ReadCsv P r emptyNull declared =
      match convertColumns P emptyNull declared cb cp hdr 0 [] with
      | Result.ok dataMap => Result.ok (dataMap, hdr)
      | Result.err e => Result.err e
      | Result.panic => Result.panic := by
  cases hc : convertColumns P emptyNull declared cb cp hdr 0 [] <;>
    simp only [ReadCsv, hheader, hrun, hc]

theorem ReadCsv_ok_inv {F : Type} (P : Parsers F) (r : Reader) (emptyNull : Bool)
    (declared : GoMap DataType) (m : GoMap (Column F)) (hs : List GoString)
    (h : ReadCsv P r emptyNull declared = Result.ok (m, hs)) :
    r.header = Except.ok hs ∧
      ∃ cb cp, collectRows r.rows (List.replicate hs.length [], List.replicate hs.length []) =
          Result.ok (cb, cp) ∧
        convertColumns P emptyNull declared cb cp hs 0 [] = Result.ok m := by
  cases hh : r.header with
  | error e => simp [ReadCsv, hh] at h
  | ok hdr =>
    cases hrun : collectRows r.rows
        (List.replicate hdr.length [], List.replicate hdr.length []) with
    | err e => simp [ReadCsv, hh, hrun] at h
    | panic => simp [ReadCsv, hh, hrun] at h
    | ok st =>
      obtain ⟨cb, cp⟩ := st
      rw [ReadCsv_of_collected P r emptyNull declared hdr cb cp hh hrun] at h
      cases hconv : convertColumns P emptyNull declared cb cp hdr 0 [] with
      | err e => rw [hconv] at h; simp at h
      | panic => rw [hconv] at h; simp at h
      | ok m1 =>
        rw [hconv] at h
        simp only [Result.ok.injEq, Prod.mk.injEq] at h
        obtain ⟨rfl, rfl⟩ := h
        exact ⟨rfl, cb, cp, hrun, hconv⟩

theorem length_eq_iff_nodup_of_keys (ks hs : List GoString) (hnd : ks.Nodup)
    (hmem : ∀ x, x ∈ ks ↔ x ∈ hs) : ks.length = hs.length ↔ hs.Nodup := by
  constructor
  · intro hlen
    have hsub : ks.Subperm hs := List.subperm_of_subset hnd (fun x hx => (hmem x).1 hx)
    have hperm : ks.Perm hs := hsub.perm_of_length_le (Nat.le_of_eq hlen.symm)
    exact hperm.nodup_iff.1 hnd
  · intro hnd2
    exact ((List.perm_ext_iff_of_nodup hnd hnd2).2 hmem).length_eq

/-- C11 as stated fails on a repeated header name: with the header a,a and the row 1,x both
columns convert (the first to the int column 1, the second to the text column x), the
returned map has the single entry of the second column and no entry holds the data of the
first. -/
theorem ReadCsv_duplicate_header_drops_column :
    ReadCsv sampleParsers dupReader false [] =
        Result.ok ([(lit "a", Column.strings [some (lit "x")])], [lit "a", lit "a"]) ∧
      collectRows dupReader.rows ([[], []], [[], []]) =
        Result.ok ([lit "1", lit "x"], [[⟨0, 1⟩], [⟨0, 1⟩]]) ∧
      convertAt sampleParsers false [] [lit "1", lit "x"] [[⟨0, 1⟩], [⟨0, 1⟩]] 0 (lit "a") =
        Result.ok (Column.ints [1]) ∧
      ∀ kv ∈ ([(lit "a", Column.strings [some (lit "x")])] : GoMap (Column SampleFloat)),
        kv.2 ≠ Column.ints [1] :=
  ⟨by decide, by decide, by decide, by decide⟩

/-- C11, amended (ingestion is all-or-nothing across columns). After a collection loop that
ended normally: if the conversion of a column returns an error and every column before it
converts, `ReadCsv` returns that error (with no data map and no header list), whatever the
later columns hold; if every column converts, `ReadCsv` returns a nil error, the header list
and a map in which every header name holds the converted data of the last column of that
name, so of every header column when the names are distinct; no result is both an error and
data. -/
theorem ReadCsv_all_or_nothing {F : Type} (P : Parsers F) (r : Reader) (emptyNull : Bool)
    (declared : GoMap DataType) (hdr : List Bytes) (cb : List Bytes)
    (cp : List (List bytePointer)) (hheader : r.header = Except.ok hdr)
    (hrun : collectRows r.rows (List.replicate hdr.length [], List.replicate hdr.length []) =
      Result.ok (cb, cp)) :
    (∀ (k : Nat) (header : GoString) (e : Error), hdr[k]? = some header →
      convertAt P emptyNull declared cb cp k header = Result.err e →
      (∀ (j : Nat) (x : GoString), j < k → hdr[j]? = some x →
        ∃ c, convertAt P emptyNull declared cb cp j x = Result.ok c) →
      ReadCsv P r emptyNull declared = Result.err e) ∧
    ((∀ (k : Nat) (header : GoString), hdr[k]? = some header →
        ∃ c, convertAt P emptyNull declared cb cp k header = Result.ok c) →
      ∃ m, ReadCsv P r emptyNull declared = Result.ok (m, hdr) ∧
        ∀ (k : Nat) (header : GoString), hdr[k]? = some header →
          (∀ j, k < j → hdr[j]? ≠ some header) →
          ∃ c, convertAt P emptyNull declared cb cp k header = Result.ok c ∧
            GoMap.get m header = some c) ∧
    (∀ e, ReadCsv P r emptyNull declared = Result.err e →
      ∀ x, ReadCsv P r emptyNull declared ≠ Result.ok x) := by
  refine ⟨?_, ?_, ?_⟩
  · intro k header e hk herr hprev
    rw [ReadCsv_of_collected P r emptyNull declared hdr cb cp hheader hrun,
      convertColumns_first_error P emptyNull declared cb cp hdr 0 [] k header e hk
        (by rwa [Nat.zero_add])
        (fun j x hj hx => by rw [Nat.zero_add]; exact hprev j x hj hx)]
  · intro hall
    obtain ⟨m, hm⟩ := convertColumns_ok_of_all P emptyNull declared cb cp hdr 0 []
      (fun k header hk => by rw [Nat.zero_add]; exact hall k header hk)
    refine ⟨m, by rw [ReadCsv_of_collected P r emptyNull declared hdr cb cp hheader hrun, hm],
      ?_⟩
    intro k header hk hlast
    have := (convertColumns_spec P emptyNull declared cb cp hdr 0 [] m hm).2.2.1 k header hk hlast
    rwa [Nat.zero_add] at this
  · intro e he x hx
    rw [he] at hx
    exact absurd hx (by simp)

/-- Witness of the amended C11: the fields 1.23 and 4.56 of column foo declared int. -/
theorem ReadCsv_all_or_nothing_witness :
    decimalReader.header = Except.ok [lit "foo"] ∧
    collectRows decimalReader.rows
        (List.replicate [lit "foo"].length [], List.replicate [lit "foo"].length []) =
      Result.ok ([lit "1.234.56"], [[⟨0, 4⟩, ⟨4, 8⟩]]) ∧
    ReadCsv sampleParsers decimalReader false [(lit "foo", types.Int)] =
      Result.err (errors.Propagate "Create int column"
        (Error.raised (lit "int: invalid syntax"))) :=
  ⟨rfl, by decide,
   (ReadCsv_all_or_nothing sampleParsers decimalReader false [(lit "foo", types.Int)]
      [lit "foo"] [lit "1.234.56"] [[⟨0, 4⟩, ⟨4, 8⟩]] rfl (by decide)).1 0 (lit "foo")
      (errors.Propagate "Create int column" (Error.raised (lit "int: invalid syntax")))
      (by decide) (by decide) (fun j _ hj => absurd hj (Nat.not_lt_zero j))⟩

theorem convertColumns_values {F : Type} (P : Parsers F) (emptyNull : Bool)
    (declared : GoMap DataType) (cb : List Bytes) (cp : List (List bytePointer)) :
    ∀ (hs : List GoString) (i : Nat) (m m1 : GoMap (Column F)),
      convertColumns P emptyNull declared cb cp hs i m = Result.ok m1 →
      ∀ kv ∈ m1, kv ∈ m ∨ ∃ (k : Nat) (header : GoString), hs[k]? = some header ∧
        convertAt P emptyNull declared cb cp (i + k) header = Result.ok kv.2 := by
  intro hs
  induction hs with
  | nil =>
    intro i m m1 h kv hkv
    simp only [convertColumns, Result.ok.injEq] at h
    subst h
    exact Or.inl hkv
  | cons header rest ih =>
    intro i m m1 h kv hkv
    rw [convertColumns_cons] at h
    cases hc : convertAt P emptyNull declared cb cp i header with
    | err e => rw [hc] at h; simp at h
    | panic => rw [hc] at h; simp at h
    | ok data =>
      rw [hc] at h
      rcases ih (i + 1) _ m1 h kv hkv with hmem | ⟨k, x, hk, hx⟩
      · simp only [GoMap.set, List.mem_append, List.mem_filter, List.mem_singleton] at hmem
        rcases hmem with ⟨hm, _⟩ | rfl
        · exact Or.inl hm
        · exact Or.inr ⟨0, header, by simp, hc⟩
      · exact Or.inr ⟨k + 1, x, by simpa using hk,
          by rwa [show i + (k + 1) = i + 1 + k by omega]⟩

/-- Every name of a list has a last position. -/
theorem exists_last_index (hs : List GoString) (x : GoString) (h : x ∈ hs) :
    ∃ k : Nat, hs[k]? = some x ∧ ∀ j : Nat, k < j → hs[j]? ≠ some x := by
  induction hs with
  | nil => exact absurd h (List.not_mem_nil x)
  | cons a rest ih =>
    by_cases hx : x ∈ rest
    · obtain ⟨k, hk, hmax⟩ := ih hx
      refine ⟨k + 1, by simpa using hk, ?_⟩
      intro j hj
      cases j with
      | zero => omega
      | succ j =>
        have := hmax j (by omega)
        simpa using this
    · have hxa : x = a := by
        rcases List.mem_cons.1 h with h1 | h1
        · exact h1
        · exact absurd h1 hx
      subst hxa
      refine ⟨0, by simp, ?_⟩
      intro j hj hcon
      cases j with
      | zero => omega
      | succ j =>
        simp only [List.getElem?_cons_succ] at hcon
        exact hx (List.getElem?_mem hcon)

theorem columnToData_no_rows {F : Type} (P : Parsers F) (bytes : Bytes) (emptyNull : Bool) :
    columnToData P bytes [] emptyNull types.None = Result.ok (Column.ints []) ∧
    columnToData P bytes [] emptyNull types.Int = Result.ok (Column.ints []) ∧
    columnToData P bytes [] emptyNull types.Float = Result.ok (Column.floats []) ∧
    columnToData P bytes [] emptyNull types.Bool = Result.ok (Column.bools []) ∧
    columnToData P bytes [] emptyNull types.String = Result.ok (Column.strings []) := by
  have hin : InBounds bytes [] := fun p hp => absurd hp (List.not_mem_nil p)
  refine ⟨?_, ?_, ?_, ?_, ?_⟩
  · rw [columnToData_none_eq P bytes [] emptyNull hin]; rfl
  · rw [columnToData_int_eq P bytes [] emptyNull hin]; rfl
  · rw [columnToData_float_eq P bytes [] emptyNull hin]; rfl
  · rw [columnToData_bool_eq P bytes [] emptyNull hin]; rfl
  · rw [columnToData_string_eq P bytes [] emptyNull hin]; rfl

/-- C16 (header-only input infers integer columns). For an input with a header row and zero
data rows and no declared type for any header, `ReadCsv` succeeds, every header name holds
the empty int column and the map holds nothing else; and `columnToData` on an empty pointer
list returns, without error, the empty column of the declared kind for int, float, bool and
string. -/
theorem ReadCsv_header_only {F : Type} (P : Parsers F) (r : Reader) (emptyNull : Bool)
    (declared : GoMap DataType) (hdr : List Bytes) (hheader : r.header = Except.ok hdr)
    (hrows : r.rows = []) (htypes : ∀ header ∈ hdr, typeOf declared header = types.None) :
    (∃ m, ReadCsv P r emptyNull declared = Result.ok (m, hdr) ∧
      (∀ header ∈ hdr, GoMap.get m header = some (Column.ints [])) ∧
      (∀ kv ∈ m, kv.1 ∈ hdr ∧ kv.2 = Column.ints [] ∧ kv.2.length = 0)) ∧
    (∀ bytes : Bytes,
      columnToData P bytes [] emptyNull types.Int = Result.ok (Column.ints []) ∧
      columnToData P bytes [] emptyNull types.Float = Result.ok (Column.floats []) ∧
      columnToData P bytes [] emptyNull types.Bool = Result.ok (Column.bools []) ∧
      columnToData P bytes [] emptyNull types.String = Result.ok (Column.strings [])) := by
  refine ⟨?_, fun bytes => (columnToData_no_rows P bytes emptyNull).2⟩
  have hrun : collectRows r.rows
      (List.replicate hdr.length [], List.replicate hdr.length []) =
      Result.ok (List.replicate hdr.length [], List.replicate hdr.length []) := by
    rw [hrows]; rfl
  have hconv : ∀ (k : Nat) (header : GoString), hdr[k]? = some header →
      convertAt P emptyNull declared (List.replicate hdr.length [])
        (List.replicate hdr.length []) k header = Result.ok (Column.ints []) := by
    intro k header hk
    have hlt : k < hdr.length := (List.getElem?_eq_some.1 hk).1
    have ht := htypes header (List.getElem?_mem hk)
    simp only [convertAt, List.getElem?_replicate, hlt, if_true, ht]
    exact (columnToData_no_rows P [] emptyNull).1
  obtain ⟨m, hm⟩ := convertColumns_ok_of_all P emptyNull declared
    (List.replicate hdr.length []) (List.replicate hdr.length []) hdr 0 []
    (fun k header hk => ⟨_, by rw [Nat.zero_add]; exact hconv k header hk⟩)
  obtain ⟨-, -, hlast, hkeys, -⟩ := convertColumns_spec P emptyNull declared _ _ hdr 0 [] m hm
  refine ⟨m, by rw [ReadCsv_of_collected P r emptyNull declared hdr _ _ hheader hrun, hm],
    ?_, ?_⟩
  · intro header hmem
    obtain ⟨k, hk, hmax⟩ := exists_last_index hdr header hmem
    obtain ⟨c, hc, hget⟩ := hlast k header hk hmax
    rw [Nat.zero_add, hconv k header hk] at hc
    simp only [Result.ok.injEq] at hc
    rw [hget, ← hc]
  · intro kv hkv
    have hkey : kv.1 ∈ hdr := by
      have := (hkeys kv.1).1 (List.mem_map_of_mem Prod.fst hkv)
      simpa [GoMap.keys] using this
    rcases convertColumns_values P emptyNull declared _ _ hdr 0 [] m hm kv hkv with
      hnil | ⟨k, header, hk, hx⟩
    · exact absurd hnil (List.not_mem_nil kv)
    · rw [Nat.zero_add, hconv k header hk] at hx
      simp only [Result.ok.injEq] at hx
      exact ⟨hkey, hx.symm, by rw [← hx]; rfl⟩

/-- Witness of C16: the header foo,bar with no data row. -/
theorem ReadCsv_header_only_witness :
    headerOnlyReader.header = Except.ok [lit "foo", lit "bar"] ∧ headerOnlyReader.rows = [] ∧
    (∀ header ∈ [lit "foo", lit "bar"], typeOf [] header = types.None) ∧
    ∃ m, ReadCsv sampleParsers headerOnlyReader true [] =
        Result.ok (m, [lit "foo", lit "bar"]) ∧
      (∀ header ∈ [lit "foo", lit "bar"], GoMap.get m header = some (Column.ints [])) ∧
      (∀ kv ∈ m, kv.1 ∈ [lit "foo", lit "bar"] ∧ kv.2 = Column.ints [] ∧ kv.2.length = 0) :=
  ⟨rfl, rfl, fun header _ => typeOf_empty header,
   (ReadCsv_header_only sampleParsers headerOnlyReader true [] [lit "foo", lit "bar"] rfl rfl
      (fun header _ => typeOf_empty header)).1⟩

/-- C14 (declaring the type enum), the code at the failing input. The input of the test
"Enum base case", header foo and rows abc, def with the declared type enum for foo, is
rejected by `ReadCsv` with the unknown-data-type error, where the test asserts no error. -/
theorem ReadCsv_enum_rejected :
    ReadCsv sampleParsers enumReader false [(lit "foo", lit "enum")] =
      Result.err (errors.New "Create column" (lit "unknown data type: enum")) := by
  decide

/-- C18 (returned header list and map keys). Whenever `ReadCsv` succeeds, the returned header
list is the header row in its original order; the keys of the returned map are exactly the
header names, each key once; every header name holds the converted data of the last column
with that name; and the map has as many entries as there are headers iff the header names
are pairwise distinct. -/
theorem ReadCsv_headers_and_keys {F : Type} (P : Parsers F) (r : Reader) (emptyNull : Bool)
    (declared : GoMap DataType) (m : GoMap (Column F)) (hs : List GoString)
    (h : ReadCsv P r emptyNull declared = Result.ok (m, hs)) :
    r.header = Except.ok hs ∧
    (∀ x, x ∈ GoMap.keys m ↔ x ∈ hs) ∧
    (GoMap.keys m).Nodup ∧
    (∃ cb cp, collectRows r.rows (List.replicate hs.length [], List.replicate hs.length []) =
        Result.ok (cb, cp) ∧
      ∀ (k : Nat) (header : GoString), hs[k]? = some header →
        (∀ j, k < j → hs[j]? ≠ some header) →
        ∃ c, convertAt P emptyNull declared cb cp k header = Result.ok c ∧
          GoMap.get m header = some c) ∧
    (m.length = hs.length ↔ hs.Nodup) := by
  obtain ⟨hheader, cb, cp, hrun, hconv⟩ := ReadCsv_ok_inv P r emptyNull declared m hs h
  obtain ⟨-, -, hlast, hkeys, hnd⟩ := convertColumns_spec P emptyNull declared cb cp hs 0 [] m hconv
  have hkeys2 : ∀ x, x ∈ GoMap.keys m ↔ x ∈ hs := by
    intro x
    rw [hkeys x]
    simp [GoMap.keys]
  have hnd2 : (GoMap.keys m).Nodup := hnd (by simp [GoMap.keys])
  refine ⟨hheader, hkeys2, hnd2, ⟨cb, cp, hrun, ?_⟩, ?_⟩
  · intro k header hk hmax
    have := hlast k header hk hmax
    rwa [Nat.zero_add] at this
  · have := length_eq_iff_nodup_of_keys (GoMap.keys m) hs hnd2 hkeys2
    simpa [GoMap.keys] using this

/-- Witness of C18: the header a,a with the row 1,x gives two headers and one map entry. -/
theorem ReadCsv_headers_and_keys_witness :
    ReadCsv sampleParsers dupReader false [] =
        Result.ok ([(lit "a", Column.strings [some (lit "x")])], [lit "a", lit "a"]) ∧
      (([(lit "a", Column.strings [some (lit "x")])] : GoMap (Column SampleFloat)).length =
          [lit "a", lit "a"].length ↔ [lit "a", lit "a"].Nodup) :=
  ⟨by decide,
   (ReadCsv_headers_and_keys sampleParsers dupReader false []
      [(lit "a", Column.strings [some (lit "x")])] [lit "a", lit "a"] (by decide)).2.2.2.2⟩

/-! ## `columnToData` for an arbitrary data type, and the role of `emptyNull` -/

/-- On an in-bounds column `columnToData` never panics, and `emptyNull` can only matter for a
text result: either the result is the same for both values of `emptyNull` and is an error or
a column that is not text, or it is the text column of the fields. -/
theorem columnToData_cases {F : Type} (P : Parsers F) (bytes : Bytes)
    (pointers : List bytePointer) (dataType : DataType) (h : InBounds bytes pointers) :
    (∃ r, (∀ emptyNull, columnToData P bytes pointers emptyNull dataType = r) ∧
        ((∃ e, r = Result.err e) ∨ ∃ c, r = Result.ok c ∧ c.kind ≠ Kind.text)) ∨
      (∀ emptyNull, columnToData P bytes pointers emptyNull dataType =
        Result.ok (Column.strings ((fieldsOf bytes pointers).map (textCell emptyNull)))) := by
  by_cases h0 : dataType = types.None
  · subst h0
    cases hi : parseAll P.parseInt (fieldsOf bytes pointers) with
    | ok xs =>
      refine Or.inl ⟨Result.ok (Column.ints xs), fun en => ?_, Or.inr ⟨_, rfl, by simp [Column.kind]⟩⟩
      rw [columnToData_none_eq P bytes pointers en h, hi]
    | error e =>
      cases hf : parseAll (floatCell P) (fieldsOf bytes pointers) with
      | ok ys =>
        refine Or.inl ⟨Result.ok (Column.floats ys), fun en => ?_,
          Or.inr ⟨_, rfl, by simp [Column.kind]⟩⟩
        rw [columnToData_none_eq P bytes pointers en h, hi, hf]
      | error e2 =>
        cases hb : parseAll P.parseBool (fieldsOf bytes pointers) with
        | ok zs =>
          refine Or.inl ⟨Result.ok (Column.bools zs), fun en => ?_,
            Or.inr ⟨_, rfl, by simp [Column.kind]⟩⟩
          rw [columnToData_none_eq P bytes pointers en h, hi, hf, hb]
        | error e3 =>
          refine Or.inr (fun en => ?_)
          rw [columnToData_none_eq P bytes pointers en h, hi, hf, hb]
  by_cases h1 : dataType = types.Int
  · subst h1
    cases hi : parseAll P.parseInt (fieldsOf bytes pointers) with
    | ok xs =>
      refine Or.inl ⟨Result.ok (Column.ints xs), fun en => ?_, Or.inr ⟨_, rfl, by simp [Column.kind]⟩⟩
      rw [columnToData_int_eq P bytes pointers en h, hi]
    | error e =>
      refine Or.inl ⟨Result.err (errors.Propagate "Create int column" e), fun en => ?_,
        Or.inl ⟨_, rfl⟩⟩
      rw [columnToData_int_eq P bytes pointers en h, hi]
  by_cases h2 : dataType = types.Float
  · subst h2
    cases hf : parseAll (floatCell P) (fieldsOf bytes pointers) with
    | ok xs =>
      refine Or.inl ⟨Result.ok (Column.floats xs), fun en => ?_,
        Or.inr ⟨_, rfl, by simp [Column.kind]⟩⟩
      rw [columnToData_float_eq P bytes pointers en h, hf]
    | error e =>
      refine Or.inl ⟨Result.err (errors.Propagate "Create float column" e), fun en => ?_,
        Or.inl ⟨_, rfl⟩⟩
      rw [columnToData_float_eq P bytes pointers en h, hf]
  by_cases h3 : dataType = types.Bool
  · subst h3
    cases hb : parseAll P.parseBool (fieldsOf bytes pointers) with
    | ok xs =>
      refine Or.inl ⟨Result.ok (Column.bools xs), fun en => ?_,
        Or.inr ⟨_, rfl, by simp [Column.kind]⟩⟩
      rw [columnToData_bool_eq P bytes pointers en h, hb]
    | error e =>
      refine Or.inl ⟨Result.err (errors.Propagate "Create bool column" e), fun en => ?_,
        Or.inl ⟨_, rfl⟩⟩
      rw [columnToData_bool_eq P bytes pointers en h, hb]
  by_cases h4 : dataType = types.String
  · subst h4
    exact Or.inr (fun en => columnToData_string_eq P bytes pointers en h)
  · exact Or.inl ⟨_, fun en => columnToData_unknown_eq P bytes pointers en dataType h0 h1 h2 h3 h4,
      Or.inl ⟨_, rfl⟩⟩

theorem columnToData_no_panic {F : Type} (P : Parsers F) (bytes : Bytes)
    (pointers : List bytePointer) (emptyNull : Bool) (dataType : DataType)
    (h : InBounds bytes pointers) :
    (∃ e, columnToData P bytes pointers emptyNull dataType = Result.err e) ∨
      ∃ c, columnToData P bytes pointers emptyNull dataType = Result.ok c := by
  rcases columnToData_cases P bytes pointers dataType h with ⟨r, hr, ⟨e, he⟩ | ⟨c, hc, _⟩⟩ | hs
  · exact Or.inl ⟨e, by rw [hr emptyNull, he]⟩
  · exact Or.inr ⟨c, by rw [hr emptyNull, hc]⟩
  · exact Or.inr ⟨_, hs emptyNull⟩

theorem textCell_of_ne_nil (emptyNull : Bool) (b : Bytes) (hb : b ≠ []) :
    textCell emptyNull b = some b := by
  simp [textCell, hb]

/-- C17 as stated fails on a pointer list that is out of bounds: on the nil buffer, the
pointer (5, 5) and the declared type string, `emptyNull = true` returns the column with one
absent cell, while `emptyNull = false` slices `bytes[5:5]` and panics. -/
theorem columnToData_emptyNull_out_of_bounds :
    columnToData sampleParsers [] [⟨5, 5⟩] true types.String =
        Result.ok (Column.strings [none]) ∧
      columnToData sampleParsers [] [⟨5, 5⟩] false types.String = Result.panic :=
  ⟨by decide, by decide⟩

/-- C17, amended (`emptyNull` influences text columns only). For every byte buffer, every
pointer list that is in bounds for it and every data type, `columnToData` with
`emptyNull = true` and with `emptyNull = false` either both fail with the same error or both
succeed with columns of the same kind and length; when the kind is int, float or bool the two
columns are identical, and when it is text they agree at every row whose field is not
empty. -/
theorem columnToData_emptyNull_text_only {F : Type} (P : Parsers F) (bytes : Bytes)
    (pointers : List bytePointer) (dataType : DataType) (h : InBounds bytes pointers) :
    (∃ e, columnToData P bytes pointers true dataType = Result.err e ∧
        columnToData P bytes pointers false dataType = Result.err e) ∨
      (∃ c1 c2, columnToData P bytes pointers true dataType = Result.ok c1 ∧
        columnToData P bytes pointers false dataType = Result.ok c2 ∧
        c1.kind = c2.kind ∧ c1.length = c2.length ∧
        (c1.kind ≠ Kind.text → c1 = c2) ∧
        (∀ xs ys, c1 = Column.strings xs → c2 = Column.strings ys →
          ∀ (k : Nat) (p : bytePointer), pointers[k]? = some p → p.start ≠ p.end_ →
            xs[k]? = ys[k]?)) := by
  rcases columnToData_cases P bytes pointers dataType h with ⟨r, hr, ⟨e, he⟩ | ⟨c, hc, _⟩⟩ | hs
  · exact Or.inl ⟨e, by rw [hr true, he], by rw [hr false, he]⟩
  · refine Or.inr ⟨c, c, by rw [hr true, hc], by rw [hr false, hc], rfl, rfl, fun _ => rfl, ?_⟩
    intro xs ys hx hy
    rw [hx] at hy
    simp only [Column.strings.injEq] at hy
    intro k p _ _
    rw [hy]
  · refine Or.inr ⟨_, _, hs true, hs false, rfl, by simp [Column.length], ?_, ?_⟩
    · intro hk
      exact absurd rfl hk
    · intro xs ys hx hy k p hk hne
      simp only [Column.strings.injEq] at hx hy
      have hp : p.start ≤ p.end_ ∧ p.end_ ≤ bytes.length := h p (List.getElem?_mem hk)
      have hf : fieldAt bytes p ≠ [] := fun h0 => hne ((fieldAt_eq_nil_iff bytes p hp).1 h0)
      rw [← hx, ← hy]
      simp only [List.getElem?_map, fieldsOf_getElem?, hk, Option.map_some',
        textCell_of_ne_nil _ _ hf]

/-- Witness of the amended C17: the column a, empty declared string differs between the two
values of `emptyNull` only in its second cell. -/
theorem columnToData_emptyNull_text_only_witness :
    InBounds (lit "a") [⟨0, 1⟩, ⟨1, 1⟩] ∧
    ((∃ e, columnToData sampleParsers (lit "a") [⟨0, 1⟩, ⟨1, 1⟩] true types.String
          = Result.err e ∧
        columnToData sampleParsers (lit "a") [⟨0, 1⟩, ⟨1, 1⟩] false types.String
          = Result.err e) ∨
      (∃ c1 c2, columnToData sampleParsers (lit "a") [⟨0, 1⟩, ⟨1, 1⟩] true types.String
          = Result.ok c1 ∧
        columnToData sampleParsers (lit "a") [⟨0, 1⟩, ⟨1, 1⟩] false types.String
          = Result.ok c2 ∧
        c1.kind = c2.kind ∧ c1.length = c2.length ∧
        (c1.kind ≠ Kind.text → c1 = c2) ∧
        (∀ xs ys, c1 = Column.strings xs → c2 = Column.strings ys →
          ∀ (k : Nat) (p : bytePointer), [(⟨0, 1⟩ : bytePointer), ⟨1, 1⟩][k]? = some p →
            p.start ≠ p.end_ → xs[k]? = ys[k]?))) :=
  ⟨by decide,
   columnToData_emptyNull_text_only sampleParsers (lit "a") [⟨0, 1⟩, ⟨1, 1⟩] types.String
     (by decide)⟩

/-- C13 (empty fields push an untyped numeric column to float, never to text). Assuming
`parseInt` rejects the empty field: for every in-bounds column with no declared type that has
at least one empty field and whose non-empty fields are all accepted by `parseFloat`, and for
both values of `emptyNull`, `columnToData` returns a float column with one entry per row,
NaN at every empty field and the value of `parseFloat` at every other field; a column whose
fields are all empty becomes the all-NaN float column. -/
theorem columnToData_empty_fields_float {F : Type} (P : Parsers F) (bytes : Bytes)
    (pointers : List bytePointer) (emptyNull : Bool) (h : InBounds bytes pointers)
    (hint : accepts P.parseInt [] = false)
    (hempty : ∃ f ∈ fieldsOf bytes pointers, f = [])
    (hfloat : ∀ f ∈ fieldsOf bytes pointers, f ≠ [] → accepts P.parseFloat f = true) :
    ∃ xs, columnToData P bytes pointers emptyNull types.None = Result.ok (Column.floats xs) ∧
      xs.length = pointers.length ∧
      (∀ (k : Nat) (p : bytePointer), pointers[k]? = some p →
        (p.start = p.end_ → xs[k]? = some P.nan) ∧
        (p.start ≠ p.end_ →
          ∃ x, xs[k]? = some x ∧ P.parseFloat (fieldAt bytes p) = Except.ok x)) ∧
      ((∀ f ∈ fieldsOf bytes pointers, f = []) → xs = List.replicate pointers.length P.nan) := by
  have hnotint : ¬ ∀ f ∈ fieldsOf bytes pointers, accepts P.parseInt f = true := by
    intro hall
    obtain ⟨f, hf, hnil⟩ := hempty
    have := hall f hf
    rw [hnil, hint] at this
    exact absurd this (by simp)
  have hallf : ∀ f ∈ fieldsOf bytes pointers, accepts (floatCell P) f = true := by
    intro f hf
    rw [accepts_floatCell]
    by_cases hnil : f = []
    · exact Or.inl hnil
    · exact Or.inr (hfloat f hf hnil)
  obtain ⟨xs, hxs⟩ := parseAll_ok_of_accepts (floatCell P) _ hallf
  have hmap := (parseAll_ok_iff (floatCell P) _ xs).1 hxs
  obtain ⟨hlen, hent⟩ := float_entries P bytes pointers h xs hmap
  refine ⟨xs, ?_, hlen, hent, ?_⟩
  · rcases parseAll_cases P.parseInt (fieldsOf bytes pointers) with ⟨hi, _⟩ | ⟨_, e, he⟩
    · exact absurd hi hnotint
    · rw [columnToData_none_eq P bytes pointers emptyNull h, he, hxs]
  · intro hall
    apply List.ext_getElem?
    intro k
    by_cases hk : k < pointers.length
    · have hpk : pointers[k]? = some pointers[k] := List.getElem?_eq_getElem hk
      have hp : pointers[k].start ≤ pointers[k].end_ ∧ pointers[k].end_ ≤ bytes.length :=
        h _ (List.getElem?_mem hpk)
      have hnil : fieldAt bytes pointers[k] = [] :=
        hall _ (List.mem_map_of_mem (fieldAt bytes) (List.getElem?_mem hpk))
      rw [(hent k _ hpk).1 ((fieldAt_eq_nil_iff bytes _ hp).1 hnil),
        List.getElem?_replicate, if_pos hk]
    · rw [List.getElem?_replicate, if_neg hk, List.getElem?_eq_none (by omega)]

/-- Witness of C13: the column of two empty fields under `emptyNull`. -/
theorem columnToData_empty_fields_float_witness :
    InBounds (lit "") [⟨0, 0⟩, ⟨0, 0⟩] ∧ accepts sampleParsers.parseInt [] = false ∧
    (∃ f ∈ fieldsOf (lit "") [⟨0, 0⟩, ⟨0, 0⟩], f = []) ∧
    (∀ f ∈ fieldsOf (lit "") [⟨0, 0⟩, ⟨0, 0⟩], f ≠ [] →
      accepts sampleParsers.parseFloat f = true) ∧
    ∃ xs, columnToData sampleParsers (lit "") [⟨0, 0⟩, ⟨0, 0⟩] true types.None
        = Result.ok (Column.floats xs) ∧
      xs.length = [(⟨0, 0⟩ : bytePointer), ⟨0, 0⟩].length ∧
      (∀ (k : Nat) (p : bytePointer), [(⟨0, 0⟩ : bytePointer), ⟨0, 0⟩][k]? = some p →
        (p.start = p.end_ → xs[k]? = some sampleParsers.nan) ∧
        (p.start ≠ p.end_ →
          ∃ x, xs[k]? = some x ∧ sampleParsers.parseFloat (fieldAt (lit "") p) = Except.ok x)) ∧
      ((∀ f ∈ fieldsOf (lit "") [⟨0, 0⟩, ⟨0, 0⟩], f = []) →
        xs = List.replicate [(⟨0, 0⟩ : bytePointer), ⟨0, 0⟩].length sampleParsers.nan) :=
  ⟨by decide, by decide, by decide, by decide,
   columnToData_empty_fields_float sampleParsers (lit "") [⟨0, 0⟩, ⟨0, 0⟩] true (by decide)
     (by decide) (by decide) (by decide)⟩

/-! ## The collected bytes and pointers -/

theorem offset_zero (fs : List Bytes) : offset fs 0 = 0 := by
  simp [offset]

theorem offset_cons_succ (f : Bytes) (fs : List Bytes) (k : Nat) :
    offset (f :: fs) (k + 1) = f.length + offset fs k := by
  simp [offset]

theorem offset_succ :
    ∀ (fs : List Bytes) (k : Nat) (f : Bytes), fs[k]? = some f →
      offset fs (k + 1) = offset fs k + f.length := by
  intro fs
  induction fs with
  | nil => intro k f hk; simp at hk
  | cons g fs ih =>
    intro k f hk
    cases k with
    | zero =>
      simp only [List.getElem?_cons_zero, Option.some.injEq] at hk
      subst hk
      simp [offset]
    | succ k =>
      rw [offset_cons_succ, offset_cons_succ, ih k f (by simpa using hk)]
      omega

theorem offset_length (fs : List Bytes) : offset fs fs.length = (fs.map List.length).sum := by
  simp [offset]

theorem offset_le_total :
    ∀ (fs : List Bytes) (k : Nat), offset fs k ≤ (fs.map List.length).sum := by
  intro fs
  induction fs with
  | nil => intro k; simp [offset]
  | cons g fs ih =>
    intro k
    cases k with
    | zero => simp [offset]
    | succ k =>
      rw [offset_cons_succ]
      simp only [List.map_cons, List.sum_cons]
      have := ih k
      omega

theorem pointersFrom_length :
    ∀ (fs : List Bytes) (s : Nat), (pointersFrom s fs).length = fs.length := by
  intro fs
  induction fs with
  | nil => intro s; rfl
  | cons f fs ih => intro s; simp [pointersFrom, ih]

/-- Below 2^32 the pointer of the `k`-th field runs from the bytes before it to the bytes
up to and including it. -/
theorem pointersFrom_getElem? :
    ∀ (fs : List Bytes) (s k : Nat), s + (fs.map List.length).sum < 2 ^ 32 →
      (pointersFrom s fs)[k]? =
        (fs[k]?).map (fun f =>
          { start := s + offset fs k, end_ := s + offset fs k + f.length }) := by
  intro fs
  induction fs with
  | nil => intro s k _; simp [pointersFrom]
  | cons f fs ih =>
    intro s k hs
    simp only [List.map_cons, List.sum_cons] at hs
    have h1 : s % 2 ^ 32 = s := Nat.mod_eq_of_lt (by omega)
    have h2 : (s + f.length) % 2 ^ 32 = s + f.length := Nat.mod_eq_of_lt (by omega)
    cases k with
    | zero =>
      simp only [pointersFrom, List.getElem?_cons_zero, h1, h2, offset_zero, Option.map_some',
        Nat.add_zero]
    | succ k =>
      simp only [pointersFrom, List.getElem?_cons_succ, offset_cons_succ]
      rw [ih (s + f.length) k (by omega)]
      cases fs[k]? with
      | none => rfl
      | some g =>
        simp only [Option.map_some', Option.some.injEq, bytePointer.mk.injEq]
        omega

theorem flatten_drop_offset :
    ∀ (fs : List Bytes) (k : Nat), fs.flatten.drop (offset fs k) = (fs.drop k).flatten := by
  intro fs
  induction fs with
  | nil => intro k; simp [offset]
  | cons f fs ih =>
    intro k
    cases k with
    | zero => simp [offset]
    | succ k =>
      rw [offset_cons_succ, List.flatten_cons, List.drop_append, ih k, List.drop_succ_cons]

/-- Slicing the buffer of a column at the pointer of its `k`-th field gives that field. -/
theorem fieldAt_flatten (fs : List Bytes) (k : Nat) (f : Bytes) (hk : fs[k]? = some f)
    (s e : Nat) (hs : s = offset fs k) (he : e = offset fs k + f.length) :
    fieldAt fs.flatten { start := s, end_ := e } = f := by
  subst hs he
  obtain ⟨hlt, hget⟩ := List.getElem?_eq_some.1 hk
  simp only [fieldAt, flatten_drop_offset, Nat.add_sub_cancel_left]
  rw [List.drop_eq_getElem_cons hlt, List.flatten_cons, hget, List.take_left]

theorem colFields_rect (i : Nat) :
    ∀ (rows : List Row), (∀ row ∈ rows, i < row.fields.length) →
      (colFields rows i).length = rows.length ∧
      ∀ (k : Nat) (f : Bytes), (colFields rows i)[k]? = some f →
        ∃ row, rows[k]? = some row ∧ row.fields[i]? = some f := by
  intro rows
  induction rows with
  | nil => intro _; simp [colFields]
  | cons row rest ih =>
    intro hrows
    have hi : i < row.fields.length := hrows row (List.mem_cons_self row rest)
    have hf : row.fields[i]? = some row.fields[i] := List.getElem?_eq_getElem hi
    obtain ⟨hlen, hget⟩ := ih (fun x hx => hrows x (List.mem_cons_of_mem row hx))
    rw [colFields_cons, hf]
    refine ⟨by simp [hlen], ?_⟩
    intro k f hk
    cases k with
    | zero =>
      simp only [Option.toList_some, List.singleton_append, List.getElem?_cons_zero,
        Option.some.injEq] at hk
      exact ⟨row, by simp, by rw [hf, hk]⟩
    | succ k =>
      simp only [Option.toList_some, List.singleton_append, List.getElem?_cons_succ] at hk
      obtain ⟨x, hx, hxf⟩ := hget k f hk
      exact ⟨x, by simpa using hx, hxf⟩

/-- C12 (field collection round trip). For data rows without errors that have exactly `n`
fields each, when the fields of every column take fewer than 2^32 bytes, the collection loop
ends normally and, for every column `i`: there is one pointer per data row; every pointer has
start ≤ end ≤ buffer length; the first start is 0; every start equals the end of the pointer
before it; the last end equals the buffer length; and the slice `colBytes[i][start:end]` of
the `k`-th pointer is the `i`-th field of the `k`-th data row. -/
theorem collectRows_round_trip (n : Nat) (rows : List Row)
    (hrows : ∀ row ∈ rows, row.err = none ∧ row.fields.length = n)
    (hsize : ∀ i, i < n → ((colFields rows i).map List.length).sum < 2 ^ 32) :
    ∃ cb cp, collectRows rows (List.replicate n [], List.replicate n []) = Result.ok (cb, cp) ∧
      cb.length = n ∧ cp.length = n ∧
      ∀ i, i < n → ∃ b ps, cb[i]? = some b ∧ cp[i]? = some ps ∧
        ps.length = rows.length ∧
        (∀ p, ps[0]? = some p → p.start = 0) ∧
        (∀ (k : Nat) (p q : bytePointer), ps[k]? = some p → ps[k + 1]? = some q →
          q.start = p.end_) ∧
        (∀ p, ps.getLast? = some p → p.end_ = b.length) ∧
        (∀ (k : Nat) (p : bytePointer), ps[k]? = some p →
          p.start ≤ p.end_ ∧ p.end_ ≤ b.length ∧
          ∃ row f, rows[k]? = some row ∧ row.fields[i]? = some f ∧ sliceOf b p = some f) := by
  obtain ⟨cb, cp, hrun, hl1, hl2, hspec⟩ :=
    collectRows_spec n rows (List.replicate n []) (List.replicate n []) (by simp) (by simp)
      (fun row hrow => ⟨(hrows row hrow).1, Nat.le_of_eq (hrows row hrow).2⟩)
  refine ⟨cb, cp, hrun, hl1, hl2, ?_⟩
  intro i hi
  obtain ⟨hb, hp⟩ := hspec i [] [] (by simp [hi]) (by simp [hi])
  simp only [List.nil_append, List.length_nil] at hb hp
  have htot := hsize i hi
  obtain ⟨hclen, hcget⟩ := colFields_rect i rows (fun row hrow => by
    rw [(hrows row hrow).2]; exact hi)
  -- the explicit form of the `k`-th pointer
  have hptr : ∀ (k : Nat) (p : bytePointer),
      (pointersFrom 0 (colFields rows i))[k]? = some p →
      ∃ f, (colFields rows i)[k]? = some f ∧ p.start = offset (colFields rows i) k ∧
        p.end_ = offset (colFields rows i) k + f.length := by
    intro k p hk
    rw [pointersFrom_getElem? (colFields rows i) 0 k (by omega)] at hk
    cases hf : (colFields rows i)[k]? with
    | none => rw [hf] at hk; simp at hk
    | some f =>
      rw [hf] at hk
      simp only [Option.map_some', Option.some.injEq] at hk
      refine ⟨f, rfl, ?_, ?_⟩ <;> rw [← hk] <;> simp
  refine ⟨_, _, hb, hp, by rw [pointersFrom_length, hclen], ?_, ?_, ?_, ?_⟩
  · intro p h0
    obtain ⟨f, _, hs, _⟩ := hptr 0 p h0
    rw [hs, offset_zero]
  · intro k p q hk hk1
    obtain ⟨f, hf, _, he⟩ := hptr k p hk
    obtain ⟨g, _, hs, _⟩ := hptr (k + 1) q hk1
    rw [hs, he, offset_succ _ k f hf]
  · intro p hlast
    rw [List.getLast?_eq_getElem?, pointersFrom_length] at hlast
    obtain ⟨f, hf, _, he⟩ := hptr _ p hlast
    have hlt : (colFields rows i).length - 1 < (colFields rows i).length :=
      (List.getElem?_eq_some.1 hf).1
    have hsucc := offset_succ _ _ f hf
    rw [show (colFields rows i).length - 1 + 1 = (colFields rows i).length by omega,
      offset_length] at hsucc
    rw [he, ← hsucc, List.length_flatten]
  · intro k p hk
    obtain ⟨f, hf, hs, he⟩ := hptr k p hk
    have hle : p.end_ ≤ (colFields rows i).flatten.length := by
      rw [he, ← offset_succ _ k f hf, List.length_flatten]
      exact offset_le_total _ _
    have hse : p.start ≤ p.end_ := by omega
    obtain ⟨row, hrow, hfield⟩ := hcget k f hf
    refine ⟨hse, hle, row, f, hrow, hfield, ?_⟩
    rw [sliceOf_of_bounds _ p ⟨hse, hle⟩]
    have := fieldAt_flatten (colFields rows i) k f hf p.start p.end_ hs he
    exact congrArg some this

/-- Witness of C12: the two data rows 1,2 and 3,4 under a header of two names. -/
theorem collectRows_round_trip_witness :
    (∀ row ∈ baseReader.rows, row.err = none ∧ row.fields.length = 2) ∧
    (∀ i, i < 2 → ((colFields baseReader.rows i).map List.length).sum < 2 ^ 32) ∧
    ∃ cb cp, collectRows baseReader.rows (List.replicate 2 [], List.replicate 2 []) =
        Result.ok (cb, cp) ∧
      cb.length = 2 ∧ cp.length = 2 ∧
      ∀ i, i < 2 → ∃ b ps, cb[i]? = some b ∧ cp[i]? = some ps ∧
        ps.length = baseReader.rows.length ∧
        (∀ p, ps[0]? = some p → p.start = 0) ∧
        (∀ (k : Nat) (p q : bytePointer), ps[k]? = some p → ps[k + 1]? = some q →
          q.start = p.end_) ∧
        (∀ p, ps.getLast? = some p → p.end_ = b.length) ∧
        (∀ (k : Nat) (p : bytePointer), ps[k]? = some p →
          p.start ≤ p.end_ ∧ p.end_ ≤ b.length ∧
          ∃ row f, baseReader.rows[k]? = some row ∧ row.fields[i]? = some f ∧
            sliceOf b p = some f) :=
  ⟨by decide, by decide, collectRows_round_trip 2 baseReader.rows (by decide) (by decide)⟩

/-! ## No panic below the header width and the pointer range -/

theorem collectedRows_err (rows : List Row) : ∀ row ∈ collectedRows rows, row.err = none := by
  intro row hrow
  have := List.mem_takeWhile_imp hrow
  simpa using this

/-- The collection loop over all rows is the loop over the rows it reaches, followed by the
return of the first row error if there is one. -/
theorem collectRows_split :
    ∀ (rows : List Row) (st : List Bytes × List (List bytePointer)),
      collectRows rows st =
        match collectRows (collectedRows rows) st with
        | Result.ok st1 =>
          (match firstRowError rows with
           | some e => Result.err e
           | none => Result.ok st1)
        | Result.err e => Result.err e
        | Result.panic => Result.panic := by
  intro rows
  induction rows with
  | nil => intro st; rfl
  | cons row rest ih =>
    intro st
    cases herr : row.err with
    | some e =>
      simp [collectedRows, List.takeWhile_cons, collectRows, firstRowError, herr]
    | none =>
      have hcoll : collectedRows (row :: rest) = row :: collectedRows rest := by
        simp [collectedRows, List.takeWhile_cons, herr]
      rw [hcoll]
      simp only [collectRows, firstRowError, herr]
      cases collectFields row.fields 0 st with
      | none => rfl
      | some st1 => exact ih st1

theorem convertColumns_no_panic {F : Type} (P : Parsers F) (emptyNull : Bool)
    (declared : GoMap DataType) (cb : List Bytes) (cp : List (List bytePointer)) :
    ∀ (hs : List GoString) (i : Nat) (m : GoMap (Column F)),
      (∀ j, i ≤ j → j < i + hs.length →
        ∃ b ps, cb[j]? = some b ∧ cp[j]? = some ps ∧ InBounds b ps) →
      (∃ e, convertColumns P emptyNull declared cb cp hs i m = Result.err e) ∨
        ∃ m1, convertColumns P emptyNull declared cb cp hs i m = Result.ok m1 := by
  intro hs
  induction hs with
  | nil => intro i m _; exact Or.inr ⟨m, rfl⟩
  | cons header rest ih =>
    intro i m hcols
    obtain ⟨b, ps, hb, hps, hin⟩ := hcols i (Nat.le_refl i) (by simp)
    have hat : convertAt P emptyNull declared cb cp i header =
        columnToData P b ps emptyNull (typeOf declared header) := by
      simp only [convertAt, hb, hps]
    rw [convertColumns_cons, hat]
    rcases columnToData_no_panic P b ps emptyNull (typeOf declared header) hin with
      ⟨e, he⟩ | ⟨c, hc⟩
    · rw [he]; exact Or.inl ⟨e, rfl⟩
    · rw [hc]
      exact ih (i + 1) _ (fun j h1 h2 =>
        hcols j (by omega) (by simp only [List.length_cons]; omega))

/-- C15 (no out-of-range access). When the rows that the collection loop reaches have at
most as many fields as the header and the fields collected for every column take fewer than
2^32 bytes: the collection loop does not panic (it ends normally or returns a row error),
after a normal end every column has a buffer and a pointer list that is in bounds for it, and
`ReadCsv` returns normally, with an error or with a result, for every declared-type map,
every `emptyNull` and whatever the parse helpers do. -/
theorem ReadCsv_no_panic {F : Type} (P : Parsers F) (r : Reader) (emptyNull : Bool)
    (declared : GoMap DataType)
    (hrows : ∀ hdr, r.header = Except.ok hdr →
      (∀ row ∈ collectedRows r.rows, row.fields.length ≤ hdr.length) ∧
      (∀ j, j < hdr.length →
        ((colFields (collectedRows r.rows) j).map List.length).sum < 2 ^ 32)) :
    (∀ hdr, r.header = Except.ok hdr →
      (∃ e, collectRows r.rows (List.replicate hdr.length [], List.replicate hdr.length []) =
          Result.err e) ∨
      (∃ cb cp,
        collectRows r.rows (List.replicate hdr.length [], List.replicate hdr.length []) =
          Result.ok (cb, cp) ∧
        ∀ j, j < hdr.length →
          ∃ b ps, cb[j]? = some b ∧ cp[j]? = some ps ∧ InBounds b ps)) ∧
    ((∃ e, ReadCsv P r emptyNull declared = Result.err e) ∨
      ∃ x, ReadCsv P r emptyNull declared = Result.ok x) := by
  have hcollect : ∀ hdr, r.header = Except.ok hdr →
      (∃ e, collectRows r.rows (List.replicate hdr.length [], List.replicate hdr.length []) =
          Result.err e) ∨
      (∃ cb cp,
        collectRows r.rows (List.replicate hdr.length [], List.replicate hdr.length []) =
          Result.ok (cb, cp) ∧
        ∀ j, j < hdr.length →
          ∃ b ps, cb[j]? = some b ∧ cp[j]? = some ps ∧ InBounds b ps) := by
    intro hdr hh
    obtain ⟨hlen, hsize⟩ := hrows hdr hh
    obtain ⟨cb, cp, hrun, -, -, hspec⟩ :=
      collectRows_spec hdr.length (collectedRows r.rows) (List.replicate hdr.length [])
        (List.replicate hdr.length []) (by simp) (by simp)
        (fun row hrow => ⟨collectedRows_err r.rows row hrow, hlen row hrow⟩)
    rw [collectRows_split, hrun]
    cases firstRowError r.rows with
    | some e => exact Or.inl ⟨e, rfl⟩
    | none =>
      refine Or.inr ⟨cb, cp, rfl, ?_⟩
      intro j hj
      obtain ⟨h1, h2⟩ := hspec j [] [] (by simp [hj]) (by simp [hj])
      refine ⟨_, _, h1, h2, ?_⟩
      simpa using pointersFrom_inBounds (colFields (collectedRows r.rows) j) (hsize j hj)
  refine ⟨hcollect, ?_⟩
  cases hh : r.header with
  | error e => exact Or.inl ⟨e, ReadCsv_header_error P r emptyNull declared e hh⟩
  | ok hdr =>
    rcases hcollect hdr hh with ⟨e, he⟩ | ⟨cb, cp, hrun, hin⟩
    · exact Or.inl ⟨e, by simp only [ReadCsv, hh, he]⟩
    · rw [ReadCsv_of_collected P r emptyNull declared hdr cb cp hh hrun]
      rcases convertColumns_no_panic P emptyNull declared cb cp hdr 0 []
          (fun j _ hj => hin j (by omega)) with ⟨e, he⟩ | ⟨m, hm⟩
      · rw [he]; exact Or.inl ⟨e, rfl⟩
      · rw [hm]; exact Or.inr ⟨_, rfl⟩

/-- Witness of C15: the input with a short second row, whose column foo is declared int. -/
theorem ReadCsv_no_panic_witness :
    (∀ hdr, shortRowReader.header = Except.ok hdr →
      (∀ row ∈ collectedRows shortRowReader.rows, row.fields.length ≤ hdr.length) ∧
      (∀ j, j < hdr.length →
        ((colFields (collectedRows shortRowReader.rows) j).map List.length).sum < 2 ^ 32)) ∧
    ((∃ e, ReadCsv sampleParsers shortRowReader false [(lit "foo", types.Int)] =
        Result.err e) ∨
      ∃ x, ReadCsv sampleParsers shortRowReader false [(lit "foo", types.Int)] =
        Result.ok x) :=
  ⟨by
      intro hdr hh
      have hhdr : hdr = [lit "foo", lit "bar"] := (Except.ok.inj hh).symm
      subst hhdr
      exact ⟨by decide, by decide⟩,
   (ReadCsv_no_panic sampleParsers shortRowReader false [(lit "foo", types.Int)]
      (by
        intro hdr hh
        have hhdr : hdr = [lit "foo", lit "bar"] := (Except.ok.inj hh).symm
        subst hhdr
        exact ⟨by decide, by decide⟩)).2⟩
